import Mathlib

/-!
Verification of `github-ccd.py`: a script that counts, for a GitHub
organization, the unique developers who committed to any repository in
the last 90 days, and writes a per-developer repository-count CSV.

The script is shallowly embedded below.  The GitHub REST API is modelled
by oracles mapping a page number to a fetch outcome (`Fetch`): the
repository-listing endpoint as `repoPages : Nat → Fetch (List String)`
(each repository object is represented by its `name` field, the only
field the script reads), and the commit-listing endpoint of a repository
as `commitPages : Nat → Fetch (List AuthorField)` (each commit object is
represented by its `author` field, the only field the script reads).
`Fetch.err` models `requests.exceptions.RequestException` (which
`raise_for_status` raises on a non-2xx response).  Wall-clock time is
modelled as integer seconds: `datetime.now()` at the i-th invocation of
`get_recent_contributors` returns `clock i`, and `timedelta(days=90)`
is `90 * 86400` seconds; the `isoformat` rendering of the timestamp is
modelled by rendering the integer.  Standard-output prints and the CSV
file write are recorded as an ordered `Event` trace; writing the file
with mode `w` replaces the file content wholesale (`applyEvent`).
`IOError` on `open` is modelled by the boolean oracle `writeOk`.
-/

/-- The `author` field of a commit object: the key may be absent from the
JSON object (in Python, `commit["author"]` then raises `KeyError`), may be
`null`, or may be a user object carrying a `login`. -/
inductive AuthorField : Type
  | absent
  | null
  | user (login : String)
deriving DecidableEq

/-- Outcome of one `get_github_api` call: parsed JSON on success, or a
`requests.exceptions.RequestException` raised by `raise_for_status`. -/
inductive Fetch (α : Type) : Type
  | ok (val : α)
  | err
deriving DecidableEq

/-- The kinds of exceptions the script can terminate with: an HTTP/request
error, a `KeyError` from indexing a missing dict key, or an `IOError`
from opening the output file. -/
inductive Err : Type
  | http
  | keyError
  | io
deriving DecidableEq

/-- An observable effect: a line printed to standard output, or the CSV
file at `path` being written (mode `w`, whole content replaced). -/
inductive Event : Type
  | print (s : String)
  | fileWrite (path : String) (lines : List String)
deriving DecidableEq

/-- Models the guarded debug print `if debug: print(msg)`. -/
def dbg (debug : Bool) (e : Event) : List Event :=
  if debug then [e] else []

/-- Python `str.lower()`. -/
def pyLower (s : String) : String :=
  ⟨s.data.map Char.toLower⟩

/-- Python `needle in hay` for strings: contiguous substring containment. -/
def pyInStr (needle hay : String) : Bool :=
  (List.range (hay.data.length + 1)).any (fun i => needle.data.isPrefixOf (hay.data.drop i))

/-- The repository filter of `get_repositories` (lines 34-37): a name is
kept unless `exclude_filter` is non-empty (Python truthiness of a string)
and `exclude_filter.lower()` occurs in `repo_name.lower()`. -/
def reposKeep (exclude_filter repo_name : String) : Bool :=
  if exclude_filter = "" then true
  else !(pyInStr (pyLower exclude_filter) (pyLower repo_name))

/-- URL of line 19: `{base_url}/orgs/{org}/repos?page={page}&per_page=100`. -/
def repoPageUrl (base_url org : String) (page : Nat) : String :=
  base_url ++ "/orgs/" ++ org ++ "/repos?page=" ++ toString page ++ "&per_page=100"

/-- URL of line 54:
`{base_url}/repos/{org}/{repo}/commits?since={since_date}&page={page}&per_page=100`. -/
def commitPageUrl (base_url org repo : String) (since : Int) (page : Nat) : String :=
  base_url ++ "/repos/" ++ org ++ "/" ++ repo ++ "/commits?since=" ++ toString since
    ++ "&page=" ++ toString page ++ "&per_page=100"

/-- Debug line of `get_github_api` (line 10). -/
def requestingMsg (url : String) : String :=
  "Requesting URL: " ++ url

/-- Line 41: `Error fetching repositories: {e}` (the exception text is not
modelled further). -/
def errorFetchingMsg : String :=
  "Error fetching repositories: RequestException"

/-- Debug line 25. -/
def fetchedMsg (n page : Nat) : String :=
  "Fetched " ++ toString n ++ " repositories on page " ++ toString page ++ "."

/-- Debug line 27. -/
def repoNameMsg (name : String) : String :=
  "Repo name: " ++ name

/-- Debug line 45. -/
def totalFetchedMsg (n : Nat) : String :=
  "Total repositories fetched: " ++ toString n

/-- Debug line 46. -/
def totalFoundMsg (n : Nat) : String :=
  "Total repositories found (after filtering): " ++ toString n

/-- Debug line 62. -/
def addedContributorMsg (login repo : String) : String :=
  "Added contributor \x27" ++ login ++ "\x27 from repository \x27" ++ repo ++ "\x27."

/-- Debug line 65 (printed after `page += 1`, so it carries the incremented
page number). -/
def processedPageMsg (page : Nat) (repo : String) : String :=
  "Processed page " ++ toString page ++ " of commits for repository \x27" ++ repo ++ "\x27."

/-- Debug line 96. -/
def updatingCountMsg (login : String) : String :=
  "Updating count for contributor \x27" ++ login ++ "\x27."

/-- Line 98: the final summary line. -/
def summaryMsg (org : String) (count : Nat) : String :=
  "Total unique developers in " ++ org ++ " who have committed in the past 90 days: "
    ++ toString count

/-- Debug line 75. -/
def wroteDevMsg (login : String) (count : Nat) : String :=
  "Wrote developer \x27" ++ login ++ "\x27 with count " ++ toString count ++ " to CSV."

/-- Debug line 77. -/
def csvCreatedMsg (filename : String) : String :=
  "CSV file \x27" ++ filename ++ "\x27 has been created."

/-- Output of the `get_repositories` pagination loop (lines 18-42). -/
structure PageLoopOut : Type where
  repos : List String
  total_fetched : Nat
  events : List Event
  requested : List String
deriving DecidableEq

/-- The `while True` loop of `get_repositories` (lines 18-42), with an
explicit fuel bound (the source loop runs until an empty page or a request
error; every theorem below supplies enough fuel for that to happen first).
`pages` is the repository-listing endpoint.  Accumulators: `repos` (the
filtered names), `total` (`total_fetched_repos`), `events` (trace so far),
`requested` (URLs requested so far). -/
def get_repositories_go (org base_url exclude_filter : String) (debug : Bool)
    (pages : Nat → Fetch (List String)) :
    Nat → Nat → List String → Nat → List Event → List String → PageLoopOut
  | 0, _page, repos, total, events, requested =>
    ⟨repos, total, events, requested⟩
  | fuel+1, page, repos, total, events, requested =>
    let url := repoPageUrl base_url org page
    match pages page with
    | .err =>
      ⟨repos, total,
        events ++ dbg debug (.print (requestingMsg url)) ++ [.print errorFetchingMsg],
        requested ++ [url]⟩
    | .ok result =>
      let events1 := events ++ dbg debug (.print (requestingMsg url))
        ++ (if debug then
              Event.print (fetchedMsg result.length page)
                :: result.map (fun r => Event.print (repoNameMsg r))
            else [])
      if result.isEmpty then
        ⟨repos, total + result.length, events1, requested ++ [url]⟩
      else
        get_repositories_go org base_url exclude_filter debug pages fuel (page + 1)
          (repos ++ result.filter (reposKeep exclude_filter))
          (total + result.length) events1 (requested ++ [url])

/-- Output of `get_repositories` (lines 14-47). -/
structure ReposResult : Type where
  repos : List String
  events : List Event
  requested : List String
deriving DecidableEq

/-- Models `get_repositories(org, token, base_url, exclude_filter, debug)`
(lines 14-47).  The token only feeds the request header and is not
modelled. -/
def get_repositories (org base_url exclude_filter : String) (debug : Bool)
    (pages : Nat → Fetch (List String)) (fuel : Nat) : ReposResult :=
  let r := get_repositories_go org base_url exclude_filter debug pages fuel 1 [] 0 [] []
  ⟨r.repos,
    r.events ++ (if debug then
        [Event.print (totalFetchedMsg r.total_fetched),
         Event.print (totalFoundMsg r.repos.length)]
      else []),
    r.requested⟩

/-- Result of the commit-listing loop: the deduplicated contributor list
(Python set, modelled as a first-add-ordered duplicate-free list) or the
exception it terminated with. -/
inductive CollectRes : Type
  | ok (contribs : List String)
  | fail (e : Err)
deriving DecidableEq

/-- The `for commit in commits` body (lines 58-62): `commit["author"]`
raises `KeyError` when the key is absent; a `null` author is skipped; a
user author has its login added to the set (the debug line is printed on
every add, even when the login is already present). -/
def processCommits (repo : String) (debug : Bool) :
    List AuthorField → List String → List Event → List Event × CollectRes
  | [], contribs, events => (events, .ok contribs)
  | .absent :: _rest, _contribs, events => (events, .fail .keyError)
  | .null :: rest, contribs, events => processCommits repo debug rest contribs events
  | .user l :: rest, contribs, events =>
    processCommits repo debug rest
      (if contribs.contains l then contribs else contribs ++ [l])
      (events ++ dbg debug (.print (addedContributorMsg l repo)))

/-- The `while True` loop of `get_recent_contributors` (lines 53-65), with
explicit fuel.  A request error is NOT caught here: it ends the whole
collection with `.fail .http`. -/
def get_recent_contributors_go (org repo base_url : String) (debug : Bool) (since : Int)
    (commitPages : Nat → Fetch (List AuthorField)) :
    Nat → Nat → List String → List Event → List String →
    List Event × List String × CollectRes
  | 0, _page, contribs, events, requested => (events, requested, .ok contribs)
  | fuel+1, page, contribs, events, requested =>
    let url := commitPageUrl base_url org repo since page
    match commitPages page with
    | .err =>
      (events ++ dbg debug (.print (requestingMsg url)), requested ++ [url], .fail .http)
    | .ok commits =>
      let events1 := events ++ dbg debug (.print (requestingMsg url))
      if commits.isEmpty then (events1, requested ++ [url], .ok contribs)
      else
        match processCommits repo debug commits contribs events1 with
        | (events2, .fail e) => (events2, requested ++ [url], .fail e)
        | (events2, .ok contribs1) =>
          get_recent_contributors_go org repo base_url debug since commitPages fuel
            (page + 1) contribs1
            (events2 ++ dbg debug (.print (processedPageMsg (page + 1) repo)))
            (requested ++ [url])

/-- The length of `timedelta(days=90)` in seconds. -/
def ninetyDaysSec : Int := 90 * 86400

/-- Output of `get_recent_contributors` (lines 49-66). -/
structure CollectResult : Type where
  since_used : Int
  events : List Event
  requested : List String
  res : CollectRes
deriving DecidableEq

/-- Models `get_recent_contributors(org, repo, token, base_url, debug)`
(lines 49-66).  `now` is the value of `datetime.now()` at this call;
line 51 computes the `since` cutoff from it. -/
def get_recent_contributors (org repo base_url : String) (debug : Bool) (now : Int)
    (commitPages : Nat → Fetch (List AuthorField)) (fuel : Nat) : CollectResult :=
  let since := now - ninetyDaysSec
  let r := get_recent_contributors_go org repo base_url debug since commitPages fuel 1 [] [] []
  ⟨since, r.1, r.2.1, r.2.2⟩

/-- Models `contributors_repo_count[c] = contributors_repo_count.get(c, 0) + 1`
on an insertion-ordered dict, modelled as an association list: update the
existing entry in place, or append a fresh entry with count 1. -/
def bump : List (String × Nat) → String → List (String × Nat)
  | [], login => [(login, 1)]
  | p :: rest, login =>
    if p.1 = login then (p.1, p.2 + 1) :: rest else p :: bump rest login

/-- Models `contributors_repo_count.get(login, 0)` on the association list. -/
def lookupCount : List (String × Nat) → String → Nat
  | [], _ => 0
  | p :: rest, login => if p.1 = login then p.2 else lookupCount rest login

/-- The `for contributor in contributors` aggregation body (lines 93-96):
bump each contributor of one repository, with the debug line per bump. -/
def accumulate (debug : Bool) :
    List (String × Nat) → List String → List (String × Nat) × List Event
  | counts, [] => (counts, [])
  | counts, c :: rest =>
    let r := accumulate debug (bump counts c) rest
    (r.1, dbg debug (.print (updatingCountMsg c)) ++ r.2)

/-- The CSV header row written on line 71. -/
def csvHeader : String := "Developer,Number of Repos"

/-- The full CSV content (lines 71-73): header, then one `login,count` row
per map entry in iteration order. -/
def csvLines (counts : List (String × Nat)) : List String :=
  csvHeader :: counts.map (fun p => p.1 ++ "," ++ toString p.2)

/-- Models `write_to_csv(contributors_repo_count, filename, debug)` (lines 68-77).
`writeOk` models whether `open(filename, "w")` succeeds; on failure an
`IOError` propagates before anything is printed or written. -/
def write_to_csv (counts : List (String × Nat)) (filename : String) (debug : Bool)
    (writeOk : Bool) : List Event × Fetch Unit :=
  if writeOk then
    (counts.flatMap (fun p => dbg debug (.print (wroteDevMsg p.1 p.2)))
      ++ [Event.fileWrite filename (csvLines counts)]
      ++ dbg debug (.print (csvCreatedMsg filename)), .ok ())
  else ([], .err)

/-- Output of the per-repository loop of `main` (lines 91-96):
per-repository contributor sets and `since` cutoffs (in processing order),
the aggregate map, the trace, and the exception that aborted the loop, if
any. -/
structure LoopOut : Type where
  sets : List (List String)
  sinces : List Int
  counts : List (String × Nat)
  events : List Event
  failure : Option Err
deriving DecidableEq

/-- The `for repo in repos` loop of `main` (lines 91-96).  `i` counts the
collector invocations made so far; `clock i` is `datetime.now()` at the
i-th one.  An exception from `get_recent_contributors` is not caught: the
loop (and the run) stops there. -/
def processRepos (org base_url : String) (debug : Bool)
    (commitPages : String → Nat → Fetch (List AuthorField))
    (clock : Nat → Int) (fuel : Nat) :
    List String → Nat → List (List String) → List Int → List (String × Nat) →
    List Event → LoopOut
  | [], _i, sets, sinces, counts, events => ⟨sets, sinces, counts, events, none⟩
  | repo :: rest, i, sets, sinces, counts, events =>
    let c := get_recent_contributors org repo base_url debug (clock i) (commitPages repo) fuel
    match c.res with
    | .fail e => ⟨sets, sinces, counts, events ++ c.events, some e⟩
    | .ok contribs =>
      let a := accumulate debug counts contribs
      processRepos org base_url debug commitPages clock fuel rest (i + 1)
        (sets ++ [contribs]) (sinces ++ [c.since_used]) a.1 (events ++ c.events ++ a.2)

/-- Observable outcome of one whole run of `main` (lines 79-99). -/
structure RunResult : Type where
  repos : List String
  sets : List (List String)
  sinces : List Int
  counts : List (String × Nat)
  events : List Event
  csv : Option (List String)
  aborted : Option Err
deriving DecidableEq

/-- Models `main()` (lines 79-99) after argument parsing: list the repositories,
collect and aggregate contributors per repository, print the summary line,
then write the CSV.  `csv` is the content of the written file (`none` when
the run aborted before or during the write); `aborted` is the exception
that terminated the run, if any.  (Named `main_run` because `main` is
reserved in Lean.) -/
def main_run (org base_url exclude_filter output_csv : String) (debug : Bool)
    (repoPages : Nat → Fetch (List String))
    (commitPages : String → Nat → Fetch (List AuthorField))
    (clock : Nat → Int) (writeOk : Bool) (fuel : Nat) : RunResult :=
  let g := get_repositories org base_url exclude_filter debug repoPages fuel
  let p := processRepos org base_url debug commitPages clock fuel g.repos 0 [] [] [] []
  match p.failure with
  | some e => ⟨g.repos, p.sets, p.sinces, p.counts, g.events ++ p.events, none, some e⟩
  | none =>
    let summaryEv := Event.print (summaryMsg org p.counts.length)
    let w := write_to_csv p.counts output_csv debug writeOk
    match w.2 with
    | .ok _ =>
      ⟨g.repos, p.sets, p.sinces, p.counts, g.events ++ p.events ++ [summaryEv] ++ w.1,
        some (csvLines p.counts), none⟩
    | .err =>
      ⟨g.repos, p.sets, p.sinces, p.counts, g.events ++ p.events ++ [summaryEv] ++ w.1,
        none, some .io⟩

/-- Whether an event is the CSV file write (as opposed to a stdout print). -/
def isFileWrite : Event → Bool
  | .print _ => false
  | .fileWrite _ _ => true

/-- Effect of one event on the file system (a map from path to content):
prints leave it alone; a file write replaces the content at its path. -/
def applyEvent (fs : String → Option (List String)) : Event → String → Option (List String)
  | .print _ => fs
  | .fileWrite path lines => fun q => if q = path then some lines else fs q

/-- Effect of a whole trace on the file system. -/
def applyEvents (fs : String → Option (List String)) (events : List Event) :
    String → Option (List String) :=
  events.foldl applyEvent fs

/-- First-occurrence deduplication starting from an already-seen list:
the key order of an insertion-ordered dict fed by repeated `bump`s. -/
def firstSeenFrom (seen : List String) (xs : List String) : List String :=
  xs.foldl (fun acc x => if x ∈ acc then acc else acc ++ [x]) seen

/-- The keys of the aggregate map, in iteration order. -/
def keysOf (counts : List (String × Nat)) : List String :=
  counts.map Prod.fst

/-! ## Concrete API oracles used by witness theorems -/

/-- Repository-page oracle used by witnesses: one non-empty page, then
empty pages. -/
def wPagesA : Nat → Fetch (List String)
  | 1 => .ok ["api", "api-legacy", "web"]
  | _ => .ok []

/-- The page contents behind `wPagesA`. -/
def wA : Nat → List String
  | _ => ["api", "api-legacy", "web"]

/-- Commit-page oracle used by witnesses: one page holding exactly 100
commits (a full `per_page` page), then empty pages. -/
def wCommitFull : Nat → Fetch (List AuthorField)
  | 1 => .ok (List.replicate 100 (.user ("alice")))
  | _ => .ok []

/-- The page contents behind `wCommitFull`. -/
def wB : Nat → List AuthorField
  | _ => List.replicate 100 (AuthorField.user ("alice"))

/-- Repository-page oracle used by witnesses: one non-empty page, then a
request error. -/
def wPagesErr : Nat → Fetch (List String)
  | 1 => .ok ["api"]
  | _ => .err

/-- The page contents behind `wPagesErr`. -/
def wAerr : Nat → List String := fun _ => ["api"]

/-- Repository-page oracle used by witnesses: a single repository. -/
def wRp1 : Nat → Fetch (List String)
  | 1 => .ok ["r1"]
  | _ => .ok []

/-- Commit-page oracle used by witnesses: every request fails. -/
def wCpErr : String → Nat → Fetch (List AuthorField) := fun _ _ => .err

/-- Commit-page oracle exhibiting a commit whose author key is absent. -/
def wCpAbsent : Nat → Fetch (List AuthorField)
  | 1 => .ok [.user ("alice"), .user ("alice"), .absent]
  | _ => .ok []

/-- Commit-page oracle for the witness: 2 commits by alice, 1 null author. -/
def wCpAlice : Nat → Fetch (List AuthorField)
  | 1 => .ok [.user ("alice"), .null, .user ("alice")]
  | _ => .ok []

/-- Commit-page oracle for witnesses: alice commits in both repositories,
bob only in the first, with duplicate commits by alice. -/
def wCpTwo : String → Nat → Fetch (List AuthorField)
  | "api", 1 => .ok [.user ("alice"), .user ("bob"), .user ("alice")]
  | "web", 1 => .ok [.user ("alice"), .null]
  | _, _ => .ok []

/-- Repository-page oracle for witnesses: two repositories on one page. -/
def wRp2 : Nat → Fetch (List String)
  | 1 => .ok ["api", "web"]
  | _ => .ok []

/-- Repository-page oracle for witnesses: no repositories at all. -/
def wRpEmpty : Nat → Fetch (List String) := fun _ => .ok []

/-- Clock used by witnesses: advances one second per collector invocation. -/
def wClock : Nat → Int := fun i => 8000000 + i

/-- Repository-page oracle used by witnesses: three repositories on one
page. -/
def wRp3 : Nat → Fetch (List String)
  | 1 => .ok ["r1", "r2", "r3"]
  | _ => .ok []

/-- Commit-page oracle used by witnesses: the first repository succeeds,
the second fails with a request error on its first commit page, the third
would succeed. -/
def wCpFailSecond : String → Nat → Fetch (List AuthorField)
  | "r1", 1 => .ok [.user ("alice")]
  | "r2", _ => .err
  | _, _ => .ok []

/-! ## Helper lemmas -/

theorem dbg_no_fileWrite (debug : Bool) (s : String) :
    ∀ e ∈ dbg debug (.print s), isFileWrite e = false := by
  intro e he
  cases debug <;> simp [dbg] at he
  subst he
  rfl

theorem grepos_go_events_prints (org base_url exclude_filter : String) (debug : Bool)
    (pages : Nat → Fetch (List String)) :
    ∀ (fuel page : Nat) (repos : List String) (total : Nat) (events : List Event)
      (requested : List String),
    (∀ e ∈ events, isFileWrite e = false) →
    ∀ e ∈ (get_repositories_go org base_url exclude_filter debug pages fuel page repos total
        events requested).events, isFileWrite e = false := by
  intro fuel
  induction fuel with
  | zero => intro page repos total events requested h; exact h
  | succ f ih =>
    intro page repos total events requested h
    simp only [get_repositories_go]
    rcases hp : pages page with result | _
    · have h1 : ∀ e ∈ events ++ dbg debug (.print (requestingMsg (repoPageUrl base_url org page)))
          ++ (if debug then
                Event.print (fetchedMsg result.length page)
                  :: result.map (fun r => Event.print (repoNameMsg r))
              else []), isFileWrite e = false := by
        intro e he
        simp only [List.mem_append] at he
        rcases he with (he | he) | he
        · exact h e he
        · exact dbg_no_fileWrite debug _ e he
        · cases debug <;> simp at he
          rcases he with he | ⟨r, _, he⟩ <;> subst he <;> rfl
      by_cases hres : result.isEmpty
      · simp only [hres, if_true]
        exact h1
      · simp only [hres, if_false]
        exact ih _ _ _ _ _ h1
    · intro e he
      simp only [List.mem_append] at he
      rcases he with (he | he) | he
      · exact h e he
      · exact dbg_no_fileWrite debug _ e he
      · simp at he; subst he; rfl

theorem grepos_go_run (org base_url exclude_filter : String) (debug : Bool)
    (pages : Nat → Fetch (List String)) :
    ∀ (k : Nat) (A : Nat → List String) (fuel page : Nat) (repos : List String)
      (total : Nat) (events : List Event) (requested : List String),
    (∀ i, i < k → pages (page + i) = .ok (A i) ∧ A i ≠ []) →
    (pages (page + k) = .ok [] ∨ pages (page + k) = .err) →
    k < fuel →
    (get_repositories_go org base_url exclude_filter debug pages fuel page repos total
        events requested).repos
      = repos ++ ((List.range k).flatMap A).filter (reposKeep exclude_filter)
    ∧ (get_repositories_go org base_url exclude_filter debug pages fuel page repos total
        events requested).requested
      = requested ++ (List.range (k + 1)).map (fun i => repoPageUrl base_url org (page + i)) := by
  intro k
  induction k with
  | zero =>
    intro A fuel page repos total events requested _hA hstop hfuel
    match fuel, hfuel with
    | f + 1, _ =>
      rw [Nat.add_zero] at hstop
      rcases hstop with h | h <;>
        simp [get_repositories_go, h, List.isEmpty_nil] <;> rfl
  | succ k ih =>
    intro A fuel page repos total events requested hA hstop hfuel
    match fuel, hfuel with
    | f + 1, hfuel =>
      have h0 := hA 0 (Nat.succ_pos k)
      rw [Nat.add_zero] at h0
      have hne : (A 0).isEmpty = false := List.isEmpty_eq_false.mpr h0.2
      have step := ih (fun i => A (i + 1)) f (page + 1)
        (repos ++ (A 0).filter (reposKeep exclude_filter)) (total + (A 0).length)
        (events ++ dbg debug (.print (requestingMsg (repoPageUrl base_url org page)))
          ++ (if debug then
                Event.print (fetchedMsg (A 0).length page)
                  :: (A 0).map (fun r => Event.print (repoNameMsg r))
              else []))
        (requested ++ [repoPageUrl base_url org page])
        (by
          intro i hi
          have := hA (i + 1) (by omega)
          rwa [show page + (i + 1) = page + 1 + i by omega] at this)
        (by rwa [show page + 1 + k = page + (k + 1) by omega])
        (by omega)
      simp only [get_repositories_go, h0.1, hne, Bool.false_eq_true, if_false]
      constructor
      · rw [step.1]
        rw [List.range_succ_eq_map, List.flatMap_cons, List.flatMap_map,
          List.filter_append, List.append_assoc]
      · rw [step.2]
        rw [List.range_succ_eq_map (k + 1), List.map_cons, List.map_map,
          List.append_assoc, List.singleton_append]
        simp only [Nat.add_zero]
        refine congrArg (requested ++ ·) (congrArg (List.cons _) (List.map_congr_left ?_))
        intro i _
        simp only [Function.comp_apply]
        congr 1
        omega

/-! ## Claim C2: repository inclusion filter -/

/-- C2: for every repository name fetched and every exclude substring, the
repository lister includes the name in its result iff the substring is
empty or does not occur case-insensitively within the name; the result is
exactly the fetched names in API-returned order with the excluded ones
removed. -/
theorem claim_C2 (org base_url exclude_filter : String) (debug : Bool)
    (pages : Nat → Fetch (List String)) (A : Nat → List String) (k fuel : Nat)
    (hA : ∀ i, i < k → pages (1 + i) = .ok (A i) ∧ A i ≠ [])
    (hstop : pages (1 + k) = .ok [])
    (hfuel : k < fuel) :
    (get_repositories org base_url exclude_filter debug pages fuel).repos
      = ((List.range k).flatMap A).filter (reposKeep exclude_filter)
    ∧ ∀ name, name ∈ (get_repositories org base_url exclude_filter debug pages fuel).repos
        ↔ name ∈ (List.range k).flatMap A
          ∧ (exclude_filter = "" ∨ pyInStr (pyLower exclude_filter) (pyLower name) = false) := by
  have h := grepos_go_run org base_url exclude_filter debug pages k A fuel 1 [] 0 [] []
    hA (Or.inl hstop) hfuel
  have hrepos : (get_repositories org base_url exclude_filter debug pages fuel).repos
      = ((List.range k).flatMap A).filter (reposKeep exclude_filter) := by
    simp only [get_repositories]
    rw [h.1]
    simp
  refine ⟨hrepos, ?_⟩
  intro name
  rw [hrepos, List.mem_filter]
  constructor
  · rintro ⟨hm, hk⟩
    refine ⟨hm, ?_⟩
    by_cases he : exclude_filter = ""
    · exact Or.inl he
    · right
      unfold reposKeep at hk
      rw [if_neg he] at hk
      simpa using hk
  · rintro ⟨hm, hk | hk⟩
    · exact ⟨hm, by simp [reposKeep, hk]⟩
    · refine ⟨hm, ?_⟩
      unfold reposKeep
      by_cases he : exclude_filter = ""
      · simp [he]
      · rw [if_neg he]
        simp [hk]

theorem claim_C2_witness :
    (get_repositories ("acme") ("base") ("legacy") false wPagesA 2).repos
      = ((List.range 1).flatMap wA).filter (reposKeep ("legacy"))
    ∧ ∀ name, name ∈ (get_repositories ("acme") ("base") ("legacy") false wPagesA 2).repos
        ↔ name ∈ (List.range 1).flatMap wA
          ∧ (("legacy" : String) = ""
              ∨ pyInStr (pyLower ("legacy")) (pyLower name) = false) :=
  claim_C2 ("acme") ("base") ("legacy") false wPagesA wA 1 2 (by decide) (by decide)
    (by decide)

/-! ## Commit-processing lemmas -/

theorem processCommits_no_absent (repo : String) (debug : Bool) :
    ∀ (cs : List AuthorField) (contribs : List String) (events : List Event),
    AuthorField.absent ∉ cs →
    ∃ ev out, processCommits repo debug cs contribs events = (ev, .ok out)
      ∧ (∀ l, l ∈ out ↔ l ∈ contribs ∨ AuthorField.user l ∈ cs) := by
  intro cs
  induction cs with
  | nil =>
    intro contribs events _
    exact ⟨events, contribs, rfl, by simp [processCommits]⟩
  | cons c rest ih =>
    intro contribs events hc
    match c with
    | .absent => simp at hc
    | .null =>
      obtain ⟨ev, out, heq, hmem⟩ := ih contribs events (by simp at hc; exact hc)
      refine ⟨ev, out, heq, fun l => ?_⟩
      rw [hmem l]
      simp
    | .user m =>
      obtain ⟨ev, out, heq, hmem⟩ :=
        ih (if contribs.contains m then contribs else contribs ++ [m])
          (events ++ dbg debug (.print (addedContributorMsg m repo)))
          (by simp at hc; exact hc)
      refine ⟨ev, out, heq, fun l => ?_⟩
      rw [hmem l]
      by_cases hm : contribs.contains m
      · rw [if_pos hm]
        have hmmem : m ∈ contribs := by simpa using hm
        constructor
        · rintro (h | h)
          · exact Or.inl h
          · exact Or.inr (by simp [h])
        · rintro (h | h)
          · exact Or.inl h
          · rcases List.mem_cons.mp h with h | h
            · cases h
              exact Or.inl hmmem
            · exact Or.inr h
      · rw [if_neg hm]
        constructor
        · rintro (h | h)
          · rcases List.mem_append.mp h with h | h
            · exact Or.inl h
            · simp at h
              exact Or.inr (by simp [h])
          · exact Or.inr (by simp [h])
        · rintro (h | h)
          · exact Or.inl (List.mem_append.mpr (Or.inl h))
          · rcases List.mem_cons.mp h with h | h
            · cases h
              exact Or.inl (by simp)
            · exact Or.inr h

theorem processCommits_nodup (repo : String) (debug : Bool) :
    ∀ (cs : List AuthorField) (contribs : List String) (events : List Event)
      (out : List String) (ev : List Event),
    contribs.Nodup →
    processCommits repo debug cs contribs events = (ev, .ok out) →
    out.Nodup := by
  intro cs
  induction cs with
  | nil =>
    intro contribs events out ev hnd heq
    simp only [processCommits] at heq
    cases heq
    exact hnd
  | cons c rest ih =>
    intro contribs events out ev hnd heq
    match c with
    | .absent => simp [processCommits] at heq
    | .null => exact ih contribs events out ev hnd heq
    | .user m =>
      refine ih _ _ out ev ?_ heq
      by_cases hm : contribs.contains m
      · rw [if_pos hm]; exact hnd
      · rw [if_neg hm]
        have : m ∉ contribs := by simpa using (Bool.of_not_eq_true hm)
        simp [List.nodup_append, this, hnd]

theorem processCommits_res_indep (repo : String) (d₁ d₂ : Bool) :
    ∀ (cs : List AuthorField) (contribs : List String) (e₁ e₂ : List Event),
    (processCommits repo d₁ cs contribs e₁).2 = (processCommits repo d₂ cs contribs e₂).2 := by
  intro cs
  induction cs with
  | nil => intro contribs e₁ e₂; rfl
  | cons c rest ih =>
    intro contribs e₁ e₂
    match c with
    | .absent => rfl
    | .null => exact ih contribs e₁ e₂
    | .user m => exact ih _ _ _

theorem processCommits_no_io (repo : String) (debug : Bool) :
    ∀ (cs : List AuthorField) (contribs : List String) (events : List Event),
    (processCommits repo debug cs contribs events).2 ≠ .fail .io := by
  intro cs
  induction cs with
  | nil => intro contribs events h; simp [processCommits] at h
  | cons c rest ih =>
    intro contribs events
    match c with
    | .absent => intro h; simp [processCommits] at h
    | .null => exact ih contribs events
    | .user m => exact ih _ _

theorem processCommits_events_prints (repo : String) (debug : Bool) :
    ∀ (cs : List AuthorField) (contribs : List String) (events : List Event),
    (∀ e ∈ events, isFileWrite e = false) →
    ∀ e ∈ (processCommits repo debug cs contribs events).1, isFileWrite e = false := by
  intro cs
  induction cs with
  | nil => intro contribs events h; exact h
  | cons c rest ih =>
    intro contribs events h
    match c with
    | .absent => exact h
    | .null => exact ih contribs events h
    | .user m =>
      refine ih _ _ ?_
      intro e he
      rcases List.mem_append.mp he with he | he
      · exact h e he
      · exact dbg_no_fileWrite debug _ e he

theorem grc_go_run (org repo base_url : String) (debug : Bool) (since : Int)
    (cp : Nat → Fetch (List AuthorField)) :
    ∀ (k : Nat) (B : Nat → List AuthorField) (fuel page : Nat) (contribs : List String)
      (events : List Event) (requested : List String),
    (∀ i, i < k → cp (page + i) = .ok (B i) ∧ B i ≠ [] ∧ AuthorField.absent ∉ B i) →
    cp (page + k) = .ok [] →
    k < fuel →
    ∃ out,
      (get_recent_contributors_go org repo base_url debug since cp fuel page contribs events
          requested).2.2 = .ok out
      ∧ (get_recent_contributors_go org repo base_url debug since cp fuel page contribs events
          requested).2.1
        = requested ++ (List.range (k + 1)).map
            (fun i => commitPageUrl base_url org repo since (page + i))
      ∧ (∀ l, l ∈ out ↔ l ∈ contribs ∨ ∃ i, i < k ∧ AuthorField.user l ∈ B i)
      ∧ (contribs.Nodup → out.Nodup) := by
  intro k
  induction k with
  | zero =>
    intro B fuel page contribs events requested _hB hstop hfuel
    match fuel, hfuel with
    | f + 1, _ =>
      rw [Nat.add_zero] at hstop
      refine ⟨contribs, ?_, ?_, ?_, fun h => h⟩
      · simp [get_recent_contributors_go, hstop, List.isEmpty_nil]
      · simp [get_recent_contributors_go, hstop, List.isEmpty_nil]
        rfl
      · intro l
        simp
  | succ k ih =>
    intro B fuel page contribs events requested hB hstop hfuel
    match fuel, hfuel with
    | f + 1, hfuel =>
      have h0 := hB 0 (Nat.succ_pos k)
      rw [Nat.add_zero] at h0
      have hne : (B 0).isEmpty = false := List.isEmpty_eq_false.mpr h0.2.1
      obtain ⟨ev0, out0, heq0, hmem0⟩ :=
        processCommits_no_absent repo debug (B 0) contribs
          (events ++ dbg debug (.print (requestingMsg (commitPageUrl base_url org repo since page))))
          h0.2.2
      obtain ⟨out, hres, hreq, hmem, hnd⟩ := ih (fun i => B (i + 1)) f (page + 1) out0
        (ev0 ++ dbg debug (.print (processedPageMsg (page + 1) repo)))
        (requested ++ [commitPageUrl base_url org repo since page])
        (by
          intro i hi
          have := hB (i + 1) (by omega)
          rwa [show page + (i + 1) = page + 1 + i by omega] at this)
        (by rwa [show page + 1 + k = page + (k + 1) by omega])
        (by omega)
      refine ⟨out, ?_, ?_, ?_, ?_⟩
      · simp only [get_recent_contributors_go, h0.1, hne, Bool.false_eq_true, if_false, heq0]
        exact hres
      · simp only [get_recent_contributors_go, h0.1, hne, Bool.false_eq_true, if_false, heq0]
        rw [hreq]
        rw [List.range_succ_eq_map (k + 1), List.map_cons, List.map_map,
          List.append_assoc, List.singleton_append]
        simp only [Nat.add_zero]
        refine congrArg (requested ++ ·) (congrArg (List.cons _) (List.map_congr_left ?_))
        intro i _
        simp only [Function.comp_apply]
        congr 1
        omega
      · intro l
        rw [hmem l, hmem0 l]
        constructor
        · rintro ((h | h) | ⟨i, hi, h⟩)
          · exact Or.inl h
          · exact Or.inr ⟨0, Nat.succ_pos k, h⟩
          · exact Or.inr ⟨i + 1, by omega, h⟩
        · rintro (h | ⟨i, hi, h⟩)
          · exact Or.inl (Or.inl h)
          · match i, hi with
            | 0, _ => exact Or.inl (Or.inr h)
            | j + 1, hj => exact Or.inr ⟨j, by omega, h⟩
      · intro hcnd
        exact hnd (processCommits_nodup repo debug (B 0) contribs _ out0 ev0 hcnd heq0)

theorem grc_go_nodup (org repo base_url : String) (debug : Bool) (since : Int)
    (cp : Nat → Fetch (List AuthorField)) :
    ∀ (fuel page : Nat) (contribs : List String) (events : List Event)
      (requested : List String) (out : List String),
    contribs.Nodup →
    (get_recent_contributors_go org repo base_url debug since cp fuel page contribs events
        requested).2.2 = .ok out →
    out.Nodup := by
  intro fuel
  induction fuel with
  | zero =>
    intro page contribs events requested out hnd heq
    simp only [get_recent_contributors_go] at heq
    cases heq
    exact hnd
  | succ f ih =>
    intro page contribs events requested out hnd heq
    simp only [get_recent_contributors_go] at heq
    rcases hcp : cp page with commits | _
    · rw [hcp] at heq
      by_cases he : commits.isEmpty
      · simp only [he, if_true] at heq
        cases heq
        exact hnd
      · simp only [he, Bool.false_eq_true, if_false] at heq
        rcases hpc : processCommits repo debug commits contribs
            (events ++ dbg debug
              (.print (requestingMsg (commitPageUrl base_url org repo since page))))
          with ⟨ev2, r⟩
        rw [hpc] at heq
        match r, heq with
        | .fail e, heq => simp at heq
        | .ok contribs1, heq =>
          exact ih _ _ _ _ out (processCommits_nodup repo debug commits contribs _ _ _ hnd hpc)
            heq
    · rw [hcp] at heq
      simp at heq

theorem grc_go_no_io (org repo base_url : String) (debug : Bool) (since : Int)
    (cp : Nat → Fetch (List AuthorField)) :
    ∀ (fuel page : Nat) (contribs : List String) (events : List Event)
      (requested : List String),
    (get_recent_contributors_go org repo base_url debug since cp fuel page contribs events
        requested).2.2 ≠ .fail .io := by
  intro fuel
  induction fuel with
  | zero =>
    intro page contribs events requested h
    simp [get_recent_contributors_go] at h
  | succ f ih =>
    intro page contribs events requested
    simp only [get_recent_contributors_go]
    rcases hcp : cp page with commits | _
    · by_cases he : commits.isEmpty
      · simp [he]
      · simp only [he, Bool.false_eq_true, if_false]
        rcases hpc : processCommits repo debug commits contribs
            (events ++ dbg debug
              (.print (requestingMsg (commitPageUrl base_url org repo since page))))
          with ⟨ev2, r⟩
        match r with
        | .fail e =>
          intro h
          simp only [] at h
          have := processCommits_no_io repo debug commits contribs
            (events ++ dbg debug
              (.print (requestingMsg (commitPageUrl base_url org repo since page))))
          rw [hpc] at this
          cases h
          exact this rfl
        | .ok contribs1 => exact ih _ _ _ _
    · simp

theorem grc_go_indep (org repo base_url : String) (d₁ d₂ : Bool) (since : Int)
    (cp : Nat → Fetch (List AuthorField)) :
    ∀ (fuel page : Nat) (contribs : List String) (e₁ e₂ : List Event)
      (requested : List String),
    (get_recent_contributors_go org repo base_url d₁ since cp fuel page contribs e₁
        requested).2.1
      = (get_recent_contributors_go org repo base_url d₂ since cp fuel page contribs e₂
        requested).2.1
    ∧ (get_recent_contributors_go org repo base_url d₁ since cp fuel page contribs e₁
        requested).2.2
      = (get_recent_contributors_go org repo base_url d₂ since cp fuel page contribs e₂
        requested).2.2 := by
  intro fuel
  induction fuel with
  | zero => intro page contribs e₁ e₂ requested; exact ⟨rfl, rfl⟩
  | succ f ih =>
    intro page contribs e₁ e₂ requested
    simp only [get_recent_contributors_go]
    rcases hcp : cp page with commits | _
    · by_cases he : commits.isEmpty
      · simp [he]
      · simp only [he, Bool.false_eq_true, if_false]
        rcases hpc1 : processCommits repo d₁ commits contribs
            (e₁ ++ dbg d₁ (.print (requestingMsg (commitPageUrl base_url org repo since page))))
          with ⟨ev1, r1⟩
        rcases hpc2 : processCommits repo d₂ commits contribs
            (e₂ ++ dbg d₂ (.print (requestingMsg (commitPageUrl base_url org repo since page))))
          with ⟨ev2, r2⟩
        have hr : r1 = r2 := by
          have := processCommits_res_indep repo d₁ d₂ commits contribs
            (e₁ ++ dbg d₁ (.print (requestingMsg (commitPageUrl base_url org repo since page))))
            (e₂ ++ dbg d₂ (.print (requestingMsg (commitPageUrl base_url org repo since page))))
          rw [hpc1, hpc2] at this
          exact this
        subst hr
        match r1 with
        | .fail e => exact ⟨rfl, rfl⟩
        | .ok contribs1 => exact ih _ _ _ _ _
    · exact ⟨rfl, rfl⟩

theorem grc_go_events_prints (org repo base_url : String) (debug : Bool) (since : Int)
    (cp : Nat → Fetch (List AuthorField)) :
    ∀ (fuel page : Nat) (contribs : List String) (events : List Event)
      (requested : List String),
    (∀ e ∈ events, isFileWrite e = false) →
    ∀ e ∈ (get_recent_contributors_go org repo base_url debug since cp fuel page contribs
        events requested).1, isFileWrite e = false := by
  intro fuel
  induction fuel with
  | zero => intro page contribs events requested h; exact h
  | succ f ih =>
    intro page contribs events requested h
    simp only [get_recent_contributors_go]
    have h1 : ∀ e ∈ events
        ++ dbg debug (.print (requestingMsg (commitPageUrl base_url org repo since page))),
        isFileWrite e = false := by
      intro e he
      rcases List.mem_append.mp he with he | he
      · exact h e he
      · exact dbg_no_fileWrite debug _ e he
    rcases hcp : cp page with commits | _
    · by_cases he : commits.isEmpty
      · simp only [he, if_true]
        exact h1
      · simp only [he, Bool.false_eq_true, if_false]
        rcases hpc : processCommits repo debug commits contribs
            (events ++ dbg debug
              (.print (requestingMsg (commitPageUrl base_url org repo since page))))
          with ⟨ev2, r⟩
        have hev2 : ∀ e ∈ ev2, isFileWrite e = false := by
          have := processCommits_events_prints repo debug commits contribs
            (events ++ dbg debug
              (.print (requestingMsg (commitPageUrl base_url org repo since page)))) h1
          rw [hpc] at this
          exact this
        match r with
        | .fail e => exact hev2
        | .ok contribs1 =>
          refine ih _ _ _ _ ?_
          intro e he
          rcases List.mem_append.mp he with he | he
          · exact hev2 e he
          · exact dbg_no_fileWrite debug _ e he
    · exact h1

/-! ## Wrapper-level lemmas -/

theorem get_repositories_events_prints (org base_url exclude_filter : String) (debug : Bool)
    (pages : Nat → Fetch (List String)) (fuel : Nat) :
    ∀ e ∈ (get_repositories org base_url exclude_filter debug pages fuel).events,
      isFileWrite e = false := by
  simp only [get_repositories]
  intro e he
  rcases List.mem_append.mp he with he | he
  · exact grepos_go_events_prints org base_url exclude_filter debug pages fuel 1 [] 0 [] []
      (by intro e h; simp at h) e he
  · cases debug <;> simp at he
    rcases he with he | he <;> subst he <;> rfl

theorem get_recent_contributors_events_prints (org repo base_url : String) (debug : Bool)
    (now : Int) (cp : Nat → Fetch (List AuthorField)) (fuel : Nat) :
    ∀ e ∈ (get_recent_contributors org repo base_url debug now cp fuel).events,
      isFileWrite e = false := by
  simp only [get_recent_contributors]
  exact grc_go_events_prints org repo base_url debug (now - ninetyDaysSec) cp fuel 1 [] [] []
    (by intro e h; simp at h)

theorem get_recent_contributors_nodup (org repo base_url : String) (debug : Bool)
    (now : Int) (cp : Nat → Fetch (List AuthorField)) (fuel : Nat) (out : List String) :
    (get_recent_contributors org repo base_url debug now cp fuel).res = .ok out →
    out.Nodup := by
  simp only [get_recent_contributors]
  exact grc_go_nodup org repo base_url debug (now - ninetyDaysSec) cp fuel 1 [] [] [] out
    List.nodup_nil

theorem get_recent_contributors_no_io (org repo base_url : String) (debug : Bool)
    (now : Int) (cp : Nat → Fetch (List AuthorField)) (fuel : Nat) :
    (get_recent_contributors org repo base_url debug now cp fuel).res ≠ .fail .io := by
  simp only [get_recent_contributors]
  exact grc_go_no_io org repo base_url debug (now - ninetyDaysSec) cp fuel 1 [] [] []

theorem get_recent_contributors_indep (org repo base_url : String) (d₁ d₂ : Bool)
    (now : Int) (cp : Nat → Fetch (List AuthorField)) (fuel : Nat) :
    (get_recent_contributors org repo base_url d₁ now cp fuel).res
      = (get_recent_contributors org repo base_url d₂ now cp fuel).res
    ∧ (get_recent_contributors org repo base_url d₁ now cp fuel).requested
      = (get_recent_contributors org repo base_url d₂ now cp fuel).requested
    ∧ (get_recent_contributors org repo base_url d₁ now cp fuel).since_used
      = (get_recent_contributors org repo base_url d₂ now cp fuel).since_used := by
  have h := grc_go_indep org repo base_url d₁ d₂ (now - ninetyDaysSec) cp fuel 1 [] [] [] []
  exact ⟨h.2, h.1, rfl⟩

/-! ## Claim C5: pagination continues until an empty page -/

/-- C5: in both pagination loops the requested URLs carry the 1-indexed
page numbers 1, 2, ..., k+1 where pages 1..k are the non-empty ones and
page k+1 is the first empty one: with k non-empty pages exactly k+1
requests are issued, so a listing whose last non-empty page holds exactly
`per_page` (100) items still issues one more request before stopping (no
size test exists; only emptiness stops the loop). -/
theorem claim_C5 (org repo base_url exclude_filter : String) (debug : Bool) (now : Int)
    (pages : Nat → Fetch (List String)) (A : Nat → List String) (k fuelR : Nat)
    (cp : Nat → Fetch (List AuthorField)) (B : Nat → List AuthorField) (m fuelC : Nat)
    (hA : ∀ i, i < k → pages (1 + i) = .ok (A i) ∧ A i ≠ [])
    (hAstop : pages (1 + k) = .ok [])
    (hfr : k < fuelR)
    (hB : ∀ i, i < m → cp (1 + i) = .ok (B i) ∧ B i ≠ [] ∧ AuthorField.absent ∉ B i)
    (hBstop : cp (1 + m) = .ok [])
    (hfc : m < fuelC) :
    (get_repositories org base_url exclude_filter debug pages fuelR).requested
      = (List.range (k + 1)).map (fun i => repoPageUrl base_url org (1 + i))
    ∧ (get_recent_contributors org repo base_url debug now cp fuelC).requested
      = (List.range (m + 1)).map
          (fun i => commitPageUrl base_url org repo (now - ninetyDaysSec) (1 + i)) := by
  constructor
  · have h := grepos_go_run org base_url exclude_filter debug pages k A fuelR 1 [] 0 [] []
      hA (Or.inl hAstop) hfr
    simp only [get_repositories]
    rw [h.2]
    simp
  · obtain ⟨out, _hres, hreq, _⟩ := grc_go_run org repo base_url debug (now - ninetyDaysSec)
      cp m B fuelC 1 [] [] [] hB hBstop hfc
    simp only [get_recent_contributors]
    rw [hreq]
    simp

theorem claim_C5_witness :
    (get_repositories ("acme") ("base") ("") false wPagesA 2).requested
      = (List.range 2).map (fun i => repoPageUrl ("base") ("acme") (1 + i))
    ∧ (get_recent_contributors ("acme") ("api") ("base") false 8000000 wCommitFull
        2).requested
      = (List.range 2).map
          (fun i => commitPageUrl ("base") ("acme") ("api") (8000000 - ninetyDaysSec)
            (1 + i)) :=
  claim_C5 ("acme") ("api") ("base") ("") false 8000000 wPagesA wA 1 2 wCommitFull wB 1 2
    (by decide) (by decide) (by decide) (by decide) (by decide) (by decide)

theorem accumulate_events_prints (debug : Bool) :
    ∀ (contribs : List String) (counts : List (String × Nat)),
    ∀ e ∈ (accumulate debug counts contribs).2, isFileWrite e = false := by
  intro contribs
  induction contribs with
  | nil => intro counts e he; simp [accumulate] at he
  | cons c rest ih =>
    intro counts e he
    simp only [accumulate] at he
    rcases List.mem_append.mp he with he | he
    · exact dbg_no_fileWrite debug _ e he
    · exact ih (bump counts c) e he

theorem processRepos_events_prints (org base_url : String) (debug : Bool)
    (cp : String → Nat → Fetch (List AuthorField)) (clock : Nat → Int) (fuel : Nat) :
    ∀ (repos : List String) (i : Nat) (sets : List (List String)) (sinces : List Int)
      (counts : List (String × Nat)) (events : List Event),
    (∀ e ∈ events, isFileWrite e = false) →
    ∀ e ∈ (processRepos org base_url debug cp clock fuel repos i sets sinces counts
        events).events, isFileWrite e = false := by
  intro repos
  induction repos with
  | nil => intro i sets sinces counts events h; exact h
  | cons r rest ih =>
    intro i sets sinces counts events h
    simp only [processRepos]
    rcases hres : (get_recent_contributors org r base_url debug (clock i) (cp r) fuel).res
      with contribs | e
    · intro e he
      refine ih (i + 1) _ _ _ _ ?_ e he
      intro x hx
      rcases List.mem_append.mp hx with hx | hx
      · rcases List.mem_append.mp hx with hx | hx
        · exact h x hx
        · exact get_recent_contributors_events_prints org r base_url debug (clock i) (cp r)
            fuel x hx
      · exact accumulate_events_prints debug contribs counts x hx
    · intro e' he
      rcases List.mem_append.mp he with he | he
      · exact h e' he
      · exact get_recent_contributors_events_prints org r base_url debug (clock i) (cp r)
          fuel e' he

theorem main_run_eq_of_failure (org base_url exclude_filter output_csv : String)
    (debug : Bool) (rp : Nat → Fetch (List String))
    (cp : String → Nat → Fetch (List AuthorField)) (clock : Nat → Int) (writeOk : Bool)
    (fuel : Nat) (e : Err)
    (hf : (processRepos org base_url debug cp clock fuel
        (get_repositories org base_url exclude_filter debug rp fuel).repos
        0 [] [] [] []).failure = some e) :
    main_run org base_url exclude_filter output_csv debug rp cp clock writeOk fuel
      = ⟨(get_repositories org base_url exclude_filter debug rp fuel).repos,
         (processRepos org base_url debug cp clock fuel
            (get_repositories org base_url exclude_filter debug rp fuel).repos
            0 [] [] [] []).sets,
         (processRepos org base_url debug cp clock fuel
            (get_repositories org base_url exclude_filter debug rp fuel).repos
            0 [] [] [] []).sinces,
         (processRepos org base_url debug cp clock fuel
            (get_repositories org base_url exclude_filter debug rp fuel).repos
            0 [] [] [] []).counts,
         (get_repositories org base_url exclude_filter debug rp fuel).events
           ++ (processRepos org base_url debug cp clock fuel
            (get_repositories org base_url exclude_filter debug rp fuel).repos
            0 [] [] [] []).events,
         none, some e⟩ := by
  simp only [main_run, hf]

theorem main_run_eq_of_ok (org base_url exclude_filter output_csv : String)
    (debug : Bool) (rp : Nat → Fetch (List String))
    (cp : String → Nat → Fetch (List AuthorField)) (clock : Nat → Int) (fuel : Nat)
    (hf : (processRepos org base_url debug cp clock fuel
        (get_repositories org base_url exclude_filter debug rp fuel).repos
        0 [] [] [] []).failure = none) :
    main_run org base_url exclude_filter output_csv debug rp cp clock true fuel
      = ⟨(get_repositories org base_url exclude_filter debug rp fuel).repos,
         (processRepos org base_url debug cp clock fuel
            (get_repositories org base_url exclude_filter debug rp fuel).repos
            0 [] [] [] []).sets,
         (processRepos org base_url debug cp clock fuel
            (get_repositories org base_url exclude_filter debug rp fuel).repos
            0 [] [] [] []).sinces,
         (processRepos org base_url debug cp clock fuel
            (get_repositories org base_url exclude_filter debug rp fuel).repos
            0 [] [] [] []).counts,
         (get_repositories org base_url exclude_filter debug rp fuel).events
           ++ (processRepos org base_url debug cp clock fuel
            (get_repositories org base_url exclude_filter debug rp fuel).repos
            0 [] [] [] []).events
           ++ [Event.print (summaryMsg org
              (processRepos org base_url debug cp clock fuel
                (get_repositories org base_url exclude_filter debug rp fuel).repos
                0 [] [] [] []).counts.length)]
           ++ (write_to_csv (processRepos org base_url debug cp clock fuel
                (get_repositories org base_url exclude_filter debug rp fuel).repos
                0 [] [] [] []).counts output_csv debug true).1,
         some (csvLines (processRepos org base_url debug cp clock fuel
            (get_repositories org base_url exclude_filter debug rp fuel).repos
            0 [] [] [] []).counts),
         none⟩ := by
  simp only [main_run, hf, write_to_csv, if_true]

theorem main_run_eq_of_io (org base_url exclude_filter output_csv : String)
    (debug : Bool) (rp : Nat → Fetch (List String))
    (cp : String → Nat → Fetch (List AuthorField)) (clock : Nat → Int) (fuel : Nat)
    (hf : (processRepos org base_url debug cp clock fuel
        (get_repositories org base_url exclude_filter debug rp fuel).repos
        0 [] [] [] []).failure = none) :
    main_run org base_url exclude_filter output_csv debug rp cp clock false fuel
      = ⟨(get_repositories org base_url exclude_filter debug rp fuel).repos,
         (processRepos org base_url debug cp clock fuel
            (get_repositories org base_url exclude_filter debug rp fuel).repos
            0 [] [] [] []).sets,
         (processRepos org base_url debug cp clock fuel
            (get_repositories org base_url exclude_filter debug rp fuel).repos
            0 [] [] [] []).sinces,
         (processRepos org base_url debug cp clock fuel
            (get_repositories org base_url exclude_filter debug rp fuel).repos
            0 [] [] [] []).counts,
         (get_repositories org base_url exclude_filter debug rp fuel).events
           ++ (processRepos org base_url debug cp clock fuel
            (get_repositories org base_url exclude_filter debug rp fuel).repos
            0 [] [] [] []).events
           ++ [Event.print (summaryMsg org
              (processRepos org base_url debug cp clock fuel
                (get_repositories org base_url exclude_filter debug rp fuel).repos
                0 [] [] [] []).counts.length)],
         none, some .io⟩ := by
  simp only [main_run, hf, write_to_csv, Bool.false_eq_true, if_false, List.append_nil]

theorem processRepos_cons_ok (org base_url : String) (debug : Bool)
    (cp : String → Nat → Fetch (List AuthorField)) (clock : Nat → Int) (fuel : Nat)
    (r : String) (rest : List String) (i : Nat) (sets : List (List String))
    (sinces : List Int) (counts : List (String × Nat)) (events : List Event)
    (contribs : List String)
    (h : (get_recent_contributors org r base_url debug (clock i) (cp r) fuel).res
      = .ok contribs) :
    processRepos org base_url debug cp clock fuel (r :: rest) i sets sinces counts events
      = processRepos org base_url debug cp clock fuel rest (i + 1) (sets ++ [contribs])
          (sinces ++ [(get_recent_contributors org r base_url debug (clock i) (cp r)
            fuel).since_used])
          (accumulate debug counts contribs).1
          (events ++ (get_recent_contributors org r base_url debug (clock i) (cp r)
            fuel).events ++ (accumulate debug counts contribs).2) := by
  simp only [processRepos, h]

theorem processRepos_cons_fail (org base_url : String) (debug : Bool)
    (cp : String → Nat → Fetch (List AuthorField)) (clock : Nat → Int) (fuel : Nat)
    (r : String) (rest : List String) (i : Nat) (sets : List (List String))
    (sinces : List Int) (counts : List (String × Nat)) (events : List Event) (e : Err)
    (h : (get_recent_contributors org r base_url debug (clock i) (cp r) fuel).res
      = .fail e) :
    processRepos org base_url debug cp clock fuel (r :: rest) i sets sinces counts events
      = ⟨sets, sinces, counts,
          events ++ (get_recent_contributors org r base_url debug (clock i) (cp r)
            fuel).events, some e⟩ := by
  simp only [processRepos, h]

/-! ## Claim C3: error propagation asymmetry -/

/-- One commit-listing request error anywhere in the repository loop makes
the loop stop with that error: if the collectors for the first `j` listed
repositories succeed and the collector for the repository at index `j`
fails with an HTTP error, the loop reports `some .http`. -/
theorem processRepos_fail_at (org base_url : String) (debug : Bool)
    (cp : String → Nat → Fetch (List AuthorField)) (clock : Nat → Int) (fuel : Nat) :
    ∀ (repos : List String) (j i : Nat) (sets : List (List String)) (sinces : List Int)
      (counts : List (String × Nat)) (events : List Event) (hj : j < repos.length),
    (∀ t (ht : t < j), ∃ c, (get_recent_contributors org
        (repos.get ⟨t, Nat.lt_trans ht hj⟩) base_url debug (clock (i + t))
        (cp (repos.get ⟨t, Nat.lt_trans ht hj⟩)) fuel).res = .ok c) →
    (get_recent_contributors org (repos.get ⟨j, hj⟩) base_url debug (clock (i + j))
        (cp (repos.get ⟨j, hj⟩)) fuel).res = .fail .http →
    (processRepos org base_url debug cp clock fuel repos i sets sinces counts
        events).failure = some .http := by
  intro repos
  induction repos with
  | nil =>
    intro j i sets sinces counts events hj
    exact absurd hj (by simp)
  | cons r rest ih =>
    intro j i sets sinces counts events hj hok hfail
    match j with
    | 0 =>
      have hfail0 : (get_recent_contributors org r base_url debug (clock i) (cp r)
          fuel).res = .fail .http := hfail
      rw [processRepos_cons_fail org base_url debug cp clock fuel r rest i sets sinces
        counts events .http hfail0]
    | m + 1 =>
      obtain ⟨c, hc⟩ := hok 0 (Nat.succ_pos m)
      have hc0 : (get_recent_contributors org r base_url debug (clock i) (cp r)
          fuel).res = .ok c := hc
      rw [processRepos_cons_ok org base_url debug cp clock fuel r rest i sets sinces
        counts events c hc0]
      have hjr : m < rest.length := by
        have := hj
        simp at this
        omega
      refine ih m (i + 1) _ _ _ _ hjr ?_ ?_
      · intro t ht
        obtain ⟨c2, hc2⟩ := hok (t + 1) (by omega)
        refine ⟨c2, ?_⟩
        rw [show i + 1 + t = i + (t + 1) from by omega]
        exact hc2
      · rw [show i + 1 + m = i + (m + 1) from by omega]
        exact hfail

/-- C3: a request error hit during repository-listing pagination is caught
(the lister returns the partial list accumulated from the pages before the
error and, being a total function, never raises), whereas a request error
during commit-listing pagination — on any repository, the first or a later
one, after any amount of partial aggregation — is not caught: the run
aborts with that error, `csv = none`, and no file-write event anywhere in
the trace. -/
theorem claim_C3 (org base_url exclude_filter output_csv : String) (debug : Bool)
    (pages : Nat → Fetch (List String)) (A : Nat → List String) (k fuel : Nat)
    (rp : Nat → Fetch (List String)) (cp : String → Nat → Fetch (List AuthorField))
    (clock : Nat → Int) (writeOk : Bool) (repos : List String) (j : Nat)
    (hA : ∀ i, i < k → pages (1 + i) = .ok (A i) ∧ A i ≠ [])
    (herr : pages (1 + k) = .err)
    (hfuel : k < fuel)
    (hrepos : (get_repositories org base_url exclude_filter debug rp fuel).repos = repos)
    (hj : j < repos.length)
    (hok : ∀ t (ht : t < j), ∃ c, (get_recent_contributors org
        (repos.get ⟨t, Nat.lt_trans ht hj⟩) base_url debug (clock t)
        (cp (repos.get ⟨t, Nat.lt_trans ht hj⟩)) fuel).res = .ok c)
    (hfail : (get_recent_contributors org (repos.get ⟨j, hj⟩) base_url debug (clock j)
        (cp (repos.get ⟨j, hj⟩)) fuel).res = .fail .http) :
    (get_repositories org base_url exclude_filter debug pages fuel).repos
      = ((List.range k).flatMap A).filter (reposKeep exclude_filter)
    ∧ (main_run org base_url exclude_filter output_csv debug rp cp clock writeOk
        fuel).aborted = some .http
    ∧ (main_run org base_url exclude_filter output_csv debug rp cp clock writeOk
        fuel).csv = none
    ∧ ∀ e ∈ (main_run org base_url exclude_filter output_csv debug rp cp clock writeOk
        fuel).events, isFileWrite e = false := by
  have ha := grepos_go_run org base_url exclude_filter debug pages k A fuel 1 [] 0 [] []
    hA (Or.inr herr) hfuel
  have haRepos : (get_repositories org base_url exclude_filter debug pages fuel).repos
      = ((List.range k).flatMap A).filter (reposKeep exclude_filter) := by
    simp only [get_repositories]
    rw [ha.1]
    simp
  have hf : (processRepos org base_url debug cp clock fuel
      (get_repositories org base_url exclude_filter debug rp fuel).repos
      0 [] [] [] []).failure = some .http := by
    rw [hrepos]
    refine processRepos_fail_at org base_url debug cp clock fuel repos j 0 [] [] [] []
      hj ?_ ?_
    · intro t ht
      obtain ⟨c, hc⟩ := hok t ht
      refine ⟨c, ?_⟩
      rw [Nat.zero_add]
      exact hc
    · rw [Nat.zero_add]
      exact hfail
  have hm := main_run_eq_of_failure org base_url exclude_filter output_csv debug rp cp
    clock writeOk fuel .http hf
  refine ⟨haRepos, ?_, ?_, ?_⟩
  · rw [hm]
  · rw [hm]
  · rw [hm]
    intro e he
    rcases List.mem_append.mp he with he | he
    · exact get_repositories_events_prints org base_url exclude_filter debug rp fuel e he
    · exact processRepos_events_prints org base_url debug cp clock fuel _ 0 [] [] [] []
        (by intro x hx; simp at hx) e he

theorem claim_C3_witness :
    (get_repositories ("acme") ("base") ("") false wPagesErr 2).repos
      = ((List.range 1).flatMap wAerr).filter (reposKeep (""))
    ∧ (main_run ("acme") ("base") ("") ("out.csv") false wRp3 wCpFailSecond wClock true
        3).aborted = some .http
    ∧ (main_run ("acme") ("base") ("") ("out.csv") false wRp3 wCpFailSecond wClock true
        3).csv = none
    ∧ ∀ e ∈ (main_run ("acme") ("base") ("") ("out.csv") false wRp3 wCpFailSecond wClock
        true 3).events, isFileWrite e = false :=
  claim_C3 ("acme") ("base") ("") ("out.csv") false wPagesErr wAerr 1 3 wRp3
    wCpFailSecond wClock true (["r1", "r2", "r3"]) 1 (by decide) (by decide) (by decide)
    (by decide) (by decide)
    (by
      intro t ht
      have ht0 : t = 0 := by omega
      subst ht0
      refine ⟨["alice"], ?_⟩
      show (get_recent_contributors ("acme") ("r1") ("base") false (wClock 0)
          (wCpFailSecond ("r1")) 3).res = .ok ["alice"]
      decide)
    (by
      show (get_recent_contributors ("acme") ("r2") ("base") false (wClock 1)
          (wCpFailSecond ("r2")) 3).res = .fail .http
      decide)

/-! ## Claim C4: null vs missing author -/

/-- C4 counterexample: a commit whose `author` key is missing is NOT
silently skipped — `commit["author"]` raises `KeyError`, so the collector
fails instead of returning a contributor set, contradicting the claim that
null-or-missing authors are skipped with no error. -/
theorem claim_C4_counterexample :
    (get_recent_contributors ("acme") ("api") ("base") false 0 wCpAbsent 3).res
      = .fail .keyError := by
  decide

/-- C4 (amended): commits whose author field is present but `null` are
silently skipped (they raise nothing and add nothing), and for a
single-page commit listing containing no absent-author commit the
collector succeeds with exactly the logins of the user-authored commits;
in particular 3 commits — 2 authored by `alice`, 1 with a null author —
yield the contributor set containing exactly `alice`.  (The original
claim also covered commits whose author key is missing; those raise
`KeyError`, see the counterexample.) -/
theorem claim_C4 (org repo base_url : String) (debug : Bool) (now : Int)
    (cp : Nat → Fetch (List AuthorField)) (cs : List AuthorField) (fuel : Nat)
    (h1 : cp 1 = .ok cs) (h2 : cp 2 = .ok []) (habs : AuthorField.absent ∉ cs)
    (hfuel : 2 ≤ fuel) :
    ∃ out, (get_recent_contributors org repo base_url debug now cp fuel).res = .ok out
      ∧ ∀ l, l ∈ out ↔ AuthorField.user l ∈ cs := by
  by_cases hcs : cs = []
  · subst hcs
    obtain ⟨out, hres, _, hmem, _⟩ := grc_go_run org repo base_url debug
      (now - ninetyDaysSec) cp 0 (fun _ => []) fuel 1 [] [] []
      (by intro i hi; omega) (by exact h1) (by omega)
    refine ⟨out, ?_, ?_⟩
    · simp only [get_recent_contributors]
      exact hres
    · intro l
      rw [hmem l]
      simp
  · obtain ⟨out, hres, _, hmem, _⟩ := grc_go_run org repo base_url debug
      (now - ninetyDaysSec) cp 1 (fun _ => cs) fuel 1 [] [] []
      (by
        intro i hi
        have : i = 0 := by omega
        subst this
        exact ⟨h1, hcs, habs⟩)
      (by exact h2) (by omega)
    refine ⟨out, ?_, ?_⟩
    · simp only [get_recent_contributors]
      exact hres
    · intro l
      rw [hmem l]
      constructor
      · rintro (h | ⟨i, _, h⟩)
        · simp at h
        · exact h
      · intro h
        exact Or.inr ⟨0, Nat.zero_lt_one, h⟩

theorem claim_C4_witness :
    ∃ out, (get_recent_contributors ("acme") ("api") ("base") false 0 wCpAlice 2).res
        = .ok out
      ∧ ∀ l, l ∈ out ↔ AuthorField.user l ∈
          ([.user ("alice"), .null, .user ("alice")] : List AuthorField) :=
  claim_C4 ("acme") ("api") ("base") false 0 wCpAlice
    ([.user ("alice"), .null, .user ("alice")]) 2 (by decide) (by decide) (by decide)
    (by decide)

/-! ## Aggregation lemmas -/

theorem lookupCount_bump :
    ∀ (counts : List (String × Nat)) (login x : String),
    lookupCount (bump counts login) x
      = lookupCount counts x + (if x = login then 1 else 0) := by
  intro counts
  induction counts with
  | nil =>
    intro login x
    by_cases h : x = login
    · subst h
      simp [bump, lookupCount]
    · have h2 : ¬ login = x := fun hh => h hh.symm
      simp [bump, lookupCount, h, h2]
  | cons p rest ih =>
    intro login x
    by_cases hp : p.1 = login
    · rw [bump, if_pos hp]
      by_cases hx : x = login
      · subst hx
        simp [lookupCount, hp]
      · have hpx : ¬ p.1 = x := fun h => hx (hp ▸ h.symm ▸ rfl)
        simp [lookupCount, hpx, hx]
    · rw [bump, if_neg hp]
      by_cases hpx : p.1 = x
      · have hx : ¬ x = login := fun h => hp (h ▸ hpx)
        simp [lookupCount, hpx, hx]
      · simp [lookupCount, hpx, ih login x]

theorem lookupCount_accumulate (debug : Bool) :
    ∀ (contribs : List String) (counts : List (String × Nat)) (x : String),
    contribs.Nodup →
    lookupCount (accumulate debug counts contribs).1 x
      = lookupCount counts x + (if x ∈ contribs then 1 else 0) := by
  intro contribs
  induction contribs with
  | nil =>
    intro counts x _
    simp [accumulate]
  | cons c rest ih =>
    intro counts x hnd
    rcases List.nodup_cons.mp hnd with ⟨hc, hrest⟩
    simp only [accumulate]
    rw [ih (bump counts c) x hrest, lookupCount_bump counts c x]
    by_cases hx : x = c
    · subst hx
      simp [hc]
    · simp [hx, List.mem_cons]

theorem processRepos_spec (org base_url : String) (debug : Bool)
    (cp : String → Nat → Fetch (List AuthorField)) (clock : Nat → Int) (fuel : Nat) :
    ∀ (repos : List String) (i : Nat) (sets : List (List String)) (sinces : List Int)
      (counts : List (String × Nat)) (events : List Event),
    ∃ newSets,
      (processRepos org base_url debug cp clock fuel repos i sets sinces counts
          events).sets = sets ++ newSets
      ∧ (∀ x, lookupCount (processRepos org base_url debug cp clock fuel repos i sets
          sinces counts events).counts x
          = lookupCount counts x + newSets.countP (fun s => decide (x ∈ s)))
      ∧ ((processRepos org base_url debug cp clock fuel repos i sets sinces counts
          events).failure = none → newSets.length = repos.length) := by
  intro repos
  induction repos with
  | nil =>
    intro i sets sinces counts events
    exact ⟨[], by simp [processRepos], fun x => by simp [processRepos],
      fun _ => by simp⟩
  | cons r rest ih =>
    intro i sets sinces counts events
    simp only [processRepos]
    rcases hres : (get_recent_contributors org r base_url debug (clock i) (cp r) fuel).res
      with contribs | e
    · have hnd : contribs.Nodup :=
        get_recent_contributors_nodup org r base_url debug (clock i) (cp r) fuel contribs
          hres
      obtain ⟨ns, h1, h2, h3⟩ := ih (i + 1) (sets ++ [contribs])
        (sinces ++ [(get_recent_contributors org r base_url debug (clock i)
          (cp r) fuel).since_used])
        (accumulate debug counts contribs).1
        (events ++ (get_recent_contributors org r base_url debug (clock i)
          (cp r) fuel).events ++ (accumulate debug counts contribs).2)
      refine ⟨contribs :: ns, ?_, ?_, ?_⟩
      · rw [h1]
        simp
      · intro x
        rw [h2 x, lookupCount_accumulate debug contribs counts x hnd, List.countP_cons]
        simp only [decide_eq_true_eq]
        by_cases hx : x ∈ contribs
        · simp [hx]
          omega
        · simp [hx]
      · intro hfail
        rw [List.length_cons, h3 hfail, List.length_cons]
    · exact ⟨[], by simp, fun x => by simp, fun h => by simp at h⟩

/-! ## Claim C1: aggregate counts count distinct repositories -/

/-- C1: in every run the aggregate count recorded for a login equals the
number of processed repositories whose contributor set contains that login
(each deduplicated per-repository set contributes at most 1 no matter how
many commits the login authored), and when the run did not abort exactly
one contributor set was processed per repository returned by the lister. -/
theorem claim_C1 (org base_url exclude_filter output_csv : String) (debug : Bool)
    (rp : Nat → Fetch (List String)) (cp : String → Nat → Fetch (List AuthorField))
    (clock : Nat → Int) (writeOk : Bool) (fuel : Nat) :
    (∀ login, lookupCount (main_run org base_url exclude_filter output_csv debug rp cp
          clock writeOk fuel).counts login
        = (main_run org base_url exclude_filter output_csv debug rp cp clock writeOk
            fuel).sets.countP (fun s => decide (login ∈ s)))
    ∧ ((main_run org base_url exclude_filter output_csv debug rp cp clock writeOk
          fuel).aborted = none
        → (main_run org base_url exclude_filter output_csv debug rp cp clock writeOk
            fuel).sets.length
          = (main_run org base_url exclude_filter output_csv debug rp cp clock writeOk
            fuel).repos.length) := by
  obtain ⟨ns, h1, h2, h3⟩ := processRepos_spec org base_url debug cp clock fuel
    (get_repositories org base_url exclude_filter debug rp fuel).repos 0 [] [] [] []
  rcases hf : (processRepos org base_url debug cp clock fuel
      (get_repositories org base_url exclude_filter debug rp fuel).repos
      0 [] [] [] []).failure with _ | e
  · cases writeOk
    · have hm := main_run_eq_of_io org base_url exclude_filter output_csv debug rp cp
        clock fuel hf
      rw [hm]
      constructor
      · intro login
        rw [h2 login, h1]
        simp [lookupCount]
      · intro h
        simp at h
    · have hm := main_run_eq_of_ok org base_url exclude_filter output_csv debug rp cp
        clock fuel hf
      rw [hm]
      constructor
      · intro login
        rw [h2 login, h1]
        simp [lookupCount]
      · intro _
        rw [h1]
        simpa using h3 hf
  · have hm := main_run_eq_of_failure org base_url exclude_filter output_csv debug rp cp
      clock writeOk fuel e hf
    rw [hm]
    constructor
    · intro login
      rw [h2 login, h1]
      simp [lookupCount]
    · intro h
      simp at h

theorem claim_C1_witness :
    (∀ login, lookupCount (main_run ("acme") ("base") ("") ("out.csv") false wRp2 wCpTwo
          (fun _ => 8000000) true 3).counts login
        = (main_run ("acme") ("base") ("") ("out.csv") false wRp2 wCpTwo
            (fun _ => 8000000) true 3).sets.countP (fun s => decide (login ∈ s)))
    ∧ ((main_run ("acme") ("base") ("") ("out.csv") false wRp2 wCpTwo
          (fun _ => 8000000) true 3).aborted = none
        → (main_run ("acme") ("base") ("") ("out.csv") false wRp2 wCpTwo
            (fun _ => 8000000) true 3).sets.length
          = (main_run ("acme") ("base") ("") ("out.csv") false wRp2 wCpTwo
            (fun _ => 8000000) true 3).repos.length) :=
  claim_C1 ("acme") ("base") ("") ("out.csv") false wRp2 wCpTwo (fun _ => 8000000) true 3

/-! ## Key-order and file-system lemmas -/

theorem keysOf_bump :
    ∀ (counts : List (String × Nat)) (login : String),
    keysOf (bump counts login)
      = if login ∈ keysOf counts then keysOf counts else keysOf counts ++ [login] := by
  intro counts
  induction counts with
  | nil => intro login; simp [bump, keysOf]
  | cons p rest ih =>
    intro login
    by_cases hp : p.1 = login
    · rw [bump, if_pos hp]
      have : login ∈ keysOf (p :: rest) := by
        simp [keysOf, hp.symm]
      rw [if_pos this]
      simp [keysOf]
    · rw [bump, if_neg hp]
      have hmem : login ∈ keysOf (p :: rest) ↔ login ∈ keysOf rest := by
        show login ∈ p.1 :: keysOf rest ↔ login ∈ keysOf rest
        rw [List.mem_cons]
        constructor
        · rintro (h | h)
          · exact absurd h.symm hp
          · exact h
        · exact Or.inr
      by_cases hl : login ∈ keysOf rest
      · rw [if_pos (hmem.mpr hl)]
        show p.1 :: keysOf (bump rest login) = keysOf (p :: rest)
        rw [ih login, if_pos hl]
        rfl
      · rw [if_neg (fun h => hl (hmem.mp h))]
        show p.1 :: keysOf (bump rest login) = keysOf (p :: rest) ++ [login]
        rw [ih login, if_neg hl]
        rfl

theorem keysOf_accumulate (debug : Bool) :
    ∀ (contribs : List String) (counts : List (String × Nat)),
    keysOf (accumulate debug counts contribs).1
      = firstSeenFrom (keysOf counts) contribs := by
  intro contribs
  induction contribs with
  | nil => intro counts; simp [accumulate, firstSeenFrom]
  | cons c rest ih =>
    intro counts
    simp only [accumulate]
    rw [ih (bump counts c)]
    simp only [firstSeenFrom, List.foldl_cons]
    rw [keysOf_bump counts c]

theorem processRepos_keys (org base_url : String) (debug : Bool)
    (cp : String → Nat → Fetch (List AuthorField)) (clock : Nat → Int) (fuel : Nat) :
    ∀ (repos : List String) (i : Nat) (sets : List (List String)) (sinces : List Int)
      (counts : List (String × Nat)) (events : List Event),
    ∃ newSets,
      (processRepos org base_url debug cp clock fuel repos i sets sinces counts
          events).sets = sets ++ newSets
      ∧ keysOf (processRepos org base_url debug cp clock fuel repos i sets sinces counts
          events).counts = firstSeenFrom (keysOf counts) newSets.flatten := by
  intro repos
  induction repos with
  | nil =>
    intro i sets sinces counts events
    exact ⟨[], by simp [processRepos], by simp [processRepos, firstSeenFrom]⟩
  | cons r rest ih =>
    intro i sets sinces counts events
    simp only [processRepos]
    rcases hres : (get_recent_contributors org r base_url debug (clock i) (cp r) fuel).res
      with contribs | e
    · obtain ⟨ns, h1, h2⟩ := ih (i + 1) (sets ++ [contribs])
        (sinces ++ [(get_recent_contributors org r base_url debug (clock i)
          (cp r) fuel).since_used])
        (accumulate debug counts contribs).1
        (events ++ (get_recent_contributors org r base_url debug (clock i)
          (cp r) fuel).events ++ (accumulate debug counts contribs).2)
      refine ⟨contribs :: ns, ?_, ?_⟩
      · rw [h1]
        simp
      · rw [h2, keysOf_accumulate debug contribs counts]
        simp only [List.flatten_cons, firstSeenFrom, List.foldl_append]
    · exact ⟨[], by simp, by simp [firstSeenFrom]⟩

theorem applyEvents_append (fs : String → Option (List String)) (l₁ l₂ : List Event) :
    applyEvents fs (l₁ ++ l₂) = applyEvents (applyEvents fs l₁) l₂ :=
  List.foldl_append applyEvent fs l₁ l₂

theorem applyEvents_no_write (fs : String → Option (List String)) :
    ∀ (l : List Event), (∀ e ∈ l, isFileWrite e = false) → applyEvents fs l = fs := by
  intro l
  induction l generalizing fs with
  | nil => intro _; rfl
  | cons e rest ih =>
    intro h
    match e, h e (List.mem_cons_self e rest) with
    | .print s, _ =>
      simp only [applyEvents, List.foldl_cons]
      exact ih (applyEvent fs (.print s)) (fun x hx => h x (List.mem_cons_of_mem _ hx))

theorem write_to_csv_fs (counts : List (String × Nat)) (filename : String) (debug : Bool)
    (fs : String → Option (List String)) :
    applyEvents fs (write_to_csv counts filename debug true).1 filename
      = some (csvLines counts) := by
  simp only [write_to_csv, if_true]
  rw [applyEvents_append, applyEvents_append]
  rw [applyEvents_no_write _ (dbg debug (.print (csvCreatedMsg filename)))
    (fun e he => dbg_no_fileWrite debug _ e he)]
  rw [applyEvents_no_write fs (counts.flatMap (fun p => dbg debug
      (.print (wroteDevMsg p.1 p.2))))
    (by
      intro e he
      rcases List.mem_flatMap.mp he with ⟨p, _, hp⟩
      exact dbg_no_fileWrite debug _ e hp)]
  simp [applyEvents, applyEvent]

/-! ## Claim C6: CSV shape, row order, overwrite -/

/-- C6: on a run that completes, the CSV content is exactly the header row
`Developer,Number of Repos` followed by one row `login,count` per
aggregate-map entry in map iteration order; that order is the
first-seen order of developers across the processed contributor sets; and
replaying the trace over any initial file system leaves exactly this
content at the output path, i.e. any existing file there is overwritten. -/
theorem claim_C6 (org base_url exclude_filter output_csv : String) (debug : Bool)
    (rp : Nat → Fetch (List String)) (cp : String → Nat → Fetch (List AuthorField))
    (clock : Nat → Int) (writeOk : Bool) (fuel : Nat)
    (habort : (main_run org base_url exclude_filter output_csv debug rp cp clock writeOk
      fuel).aborted = none) :
    (main_run org base_url exclude_filter output_csv debug rp cp clock writeOk fuel).csv
      = some (csvHeader :: (main_run org base_url exclude_filter output_csv debug rp cp
          clock writeOk fuel).counts.map (fun p => p.1 ++ "," ++ toString p.2))
    ∧ keysOf (main_run org base_url exclude_filter output_csv debug rp cp clock writeOk
        fuel).counts
      = firstSeenFrom [] (main_run org base_url exclude_filter output_csv debug rp cp
          clock writeOk fuel).sets.flatten
    ∧ ∀ fs, applyEvents fs (main_run org base_url exclude_filter output_csv debug rp cp
        clock writeOk fuel).events output_csv
      = some (csvHeader :: (main_run org base_url exclude_filter output_csv debug rp cp
          clock writeOk fuel).counts.map (fun p => p.1 ++ "," ++ toString p.2)) := by
  rcases hpf : (processRepos org base_url debug cp clock fuel
      (get_repositories org base_url exclude_filter debug rp fuel).repos
      0 [] [] [] []).failure with _ | e
  · cases writeOk
    · rw [main_run_eq_of_io org base_url exclude_filter output_csv debug rp cp clock fuel
        hpf] at habort
      simp at habort
    · have hm := main_run_eq_of_ok org base_url exclude_filter output_csv debug rp cp
        clock fuel hpf
      obtain ⟨ns, h1, h2⟩ := processRepos_keys org base_url debug cp clock fuel
        (get_repositories org base_url exclude_filter debug rp fuel).repos 0 [] [] [] []
      rw [hm]
      refine ⟨by simp [csvLines], ?_, ?_⟩
      · show keysOf (processRepos org base_url debug cp clock fuel
            (get_repositories org base_url exclude_filter debug rp fuel).repos
            0 [] [] [] []).counts = _
        rw [h2]
        rw [show (processRepos org base_url debug cp clock fuel
            (get_repositories org base_url exclude_filter debug rp fuel).repos
            0 [] [] [] []).sets = ns from by rw [h1]; simp]
        rfl
      · intro fs
        show applyEvents fs ((get_repositories org base_url exclude_filter debug rp
            fuel).events
          ++ (processRepos org base_url debug cp clock fuel
            (get_repositories org base_url exclude_filter debug rp fuel).repos
            0 [] [] [] []).events
          ++ [Event.print (summaryMsg org (processRepos org base_url debug cp clock fuel
              (get_repositories org base_url exclude_filter debug rp fuel).repos
              0 [] [] [] []).counts.length)]
          ++ (write_to_csv (processRepos org base_url debug cp clock fuel
              (get_repositories org base_url exclude_filter debug rp fuel).repos
              0 [] [] [] []).counts output_csv debug true).1) output_csv = _
        rw [applyEvents_append, applyEvents_append, applyEvents_append]
        rw [applyEvents_no_write fs _
          (get_repositories_events_prints org base_url exclude_filter debug rp fuel)]
        rw [applyEvents_no_write fs _
          (processRepos_events_prints org base_url debug cp clock fuel _ 0 [] [] [] []
            (by intro x hx; simp at hx))]
        rw [applyEvents_no_write fs _
          (by
            intro x hx
            simp at hx
            subst hx
            rfl)]
        rw [write_to_csv_fs]
        simp [csvLines]
  · rw [main_run_eq_of_failure org base_url exclude_filter output_csv debug rp cp clock
      writeOk fuel e hpf] at habort
    simp at habort

theorem claim_C6_witness :
    (main_run ("acme") ("base") ("") ("out.csv") false wRp2 wCpTwo (fun _ => 8000000)
        true 3).csv
      = some (csvHeader :: (main_run ("acme") ("base") ("") ("out.csv") false wRp2 wCpTwo
          (fun _ => 8000000) true 3).counts.map (fun p => p.1 ++ "," ++ toString p.2))
    ∧ keysOf (main_run ("acme") ("base") ("") ("out.csv") false wRp2 wCpTwo
        (fun _ => 8000000) true 3).counts
      = firstSeenFrom [] (main_run ("acme") ("base") ("") ("out.csv") false wRp2 wCpTwo
          (fun _ => 8000000) true 3).sets.flatten
    ∧ ∀ fs, applyEvents fs (main_run ("acme") ("base") ("") ("out.csv") false wRp2 wCpTwo
        (fun _ => 8000000) true 3).events ("out.csv")
      = some (csvHeader :: (main_run ("acme") ("base") ("") ("out.csv") false wRp2 wCpTwo
          (fun _ => 8000000) true 3).counts.map (fun p => p.1 ++ "," ++ toString p.2)) :=
  claim_C6 ("acme") ("base") ("") ("out.csv") false wRp2 wCpTwo (fun _ => 8000000) true 3
    (by decide)

theorem processRepos_no_io (org base_url : String) (debug : Bool)
    (cp : String → Nat → Fetch (List AuthorField)) (clock : Nat → Int) (fuel : Nat) :
    ∀ (repos : List String) (i : Nat) (sets : List (List String)) (sinces : List Int)
      (counts : List (String × Nat)) (events : List Event),
    (processRepos org base_url debug cp clock fuel repos i sets sinces counts
        events).failure ≠ some .io := by
  intro repos
  induction repos with
  | nil => intro i sets sinces counts events h; simp [processRepos] at h
  | cons r rest ih =>
    intro i sets sinces counts events
    simp only [processRepos]
    rcases hres : (get_recent_contributors org r base_url debug (clock i) (cp r) fuel).res
      with contribs | e
    · exact ih (i + 1) _ _ _ _
    · intro h
      simp only [Option.some.injEq] at h
      subst h
      exact get_recent_contributors_no_io org r base_url debug (clock i) (cp r) fuel hres

/-! ## Claim C7: summary line vs CSV write ordering -/

/-- C7 counterexample: with an empty organization and a failing CSV write,
the run aborts with an `IOError` but the summary line HAS already been
printed — `main` prints the summary (line 98) before calling
`write_to_csv` (line 99), contradicting the claim that an `IOError` during
CSV writing aborts the run without the summary having been printed. -/
theorem claim_C7_counterexample :
    (main_run ("acme") ("base") ("") ("out.csv") false wRpEmpty wCpTwo (fun _ => 0)
        false 1).aborted = some .io
    ∧ Event.print (summaryMsg ("acme") 0)
      ∈ (main_run ("acme") ("base") ("") ("out.csv") false wRpEmpty wCpTwo (fun _ => 0)
        false 1).events := by
  decide

/-- C7 (amended): the summary line is printed immediately before the CSV
file is written, not after: on a completed run the trace splits as
`l₁ ++ summary :: l₂` with no file write before the summary and the file
write among the events after it, and when an `IOError` occurs during CSV
writing the run aborts with the summary already printed and no file
written. -/
theorem claim_C7 (org base_url exclude_filter output_csv : String) (debug : Bool)
    (rp : Nat → Fetch (List String)) (cp : String → Nat → Fetch (List AuthorField))
    (clock : Nat → Int) (writeOk : Bool) (fuel : Nat) :
    ((main_run org base_url exclude_filter output_csv debug rp cp clock writeOk
        fuel).aborted = some .io →
      Event.print (summaryMsg org (main_run org base_url exclude_filter output_csv debug
        rp cp clock writeOk fuel).counts.length)
        ∈ (main_run org base_url exclude_filter output_csv debug rp cp clock writeOk
          fuel).events
      ∧ ∀ e ∈ (main_run org base_url exclude_filter output_csv debug rp cp clock writeOk
          fuel).events, isFileWrite e = false)
    ∧ ((main_run org base_url exclude_filter output_csv debug rp cp clock writeOk
        fuel).aborted = none →
      ∃ l₁ l₂, (main_run org base_url exclude_filter output_csv debug rp cp clock writeOk
          fuel).events
          = l₁ ++ Event.print (summaryMsg org (main_run org base_url exclude_filter
              output_csv debug rp cp clock writeOk fuel).counts.length) :: l₂
        ∧ (∀ e ∈ l₁, isFileWrite e = false)
        ∧ Event.fileWrite output_csv (csvLines (main_run org base_url exclude_filter
            output_csv debug rp cp clock writeOk fuel).counts) ∈ l₂) := by
  rcases hpf : (processRepos org base_url debug cp clock fuel
      (get_repositories org base_url exclude_filter debug rp fuel).repos
      0 [] [] [] []).failure with _ | e
  · cases writeOk
    · have hm := main_run_eq_of_io org base_url exclude_filter output_csv debug rp cp
        clock fuel hpf
      rw [hm]
      constructor
      · intro _
        constructor
        · simp
        · intro e he
          rcases List.mem_append.mp he with he | he
          · rcases List.mem_append.mp he with he | he
            · exact get_repositories_events_prints org base_url exclude_filter debug rp
                fuel e he
            · exact processRepos_events_prints org base_url debug cp clock fuel _ 0
                [] [] [] [] (by intro x hx; simp at hx) e he
          · simp at he
            subst he
            rfl
      · intro h
        simp at h
    · have hm := main_run_eq_of_ok org base_url exclude_filter output_csv debug rp cp
        clock fuel hpf
      rw [hm]
      constructor
      · intro h
        simp at h
      · intro _
        refine ⟨(get_repositories org base_url exclude_filter debug rp fuel).events
            ++ (processRepos org base_url debug cp clock fuel
              (get_repositories org base_url exclude_filter debug rp fuel).repos
              0 [] [] [] []).events,
          (write_to_csv (processRepos org base_url debug cp clock fuel
              (get_repositories org base_url exclude_filter debug rp fuel).repos
              0 [] [] [] []).counts output_csv debug true).1, ?_, ?_, ?_⟩
        · simp
        · intro e he
          rcases List.mem_append.mp he with he | he
          · exact get_repositories_events_prints org base_url exclude_filter debug rp
              fuel e he
          · exact processRepos_events_prints org base_url debug cp clock fuel _ 0
              [] [] [] [] (by intro x hx; simp at hx) e he
        · simp [write_to_csv]
  · have hm := main_run_eq_of_failure org base_url exclude_filter output_csv debug rp cp
      clock writeOk fuel e hpf
    constructor
    · intro habort
      rw [hm] at habort
      simp only [Option.some.injEq] at habort
      exact absurd (habort ▸ hpf) (processRepos_no_io org base_url debug cp clock fuel _
        0 [] [] [] [])
    · intro habort
      rw [hm] at habort
      simp at habort

theorem claim_C7_witness :
    Event.print (summaryMsg ("acme") ((main_run ("acme") ("base") ("") ("out.csv") false
        wRpEmpty wCpTwo (fun _ => 0) false 1).counts.length))
      ∈ (main_run ("acme") ("base") ("") ("out.csv") false wRpEmpty wCpTwo (fun _ => 0)
        false 1).events
    ∧ ∀ e ∈ (main_run ("acme") ("base") ("") ("out.csv") false wRpEmpty wCpTwo
        (fun _ => 0) false 1).events, isFileWrite e = false :=
  (claim_C7 ("acme") ("base") ("") ("out.csv") false wRpEmpty wCpTwo (fun _ => 0)
    false 1).1 (by decide)

/-! ## Claim C8: empty organization -/

/-- C8: when the organization listing returns zero repositories on page 1
(and the CSV write succeeds), the run completes normally: no abort, empty
aggregate map, a CSV containing only the header row, and the printed
summary line reporting 0 developers. -/
theorem claim_C8 (org base_url exclude_filter output_csv : String) (debug : Bool)
    (rp : Nat → Fetch (List String)) (cp : String → Nat → Fetch (List AuthorField))
    (clock : Nat → Int) (fuel : Nat)
    (h1 : rp 1 = .ok []) (hfuel : 1 ≤ fuel) :
    (main_run org base_url exclude_filter output_csv debug rp cp clock true fuel).aborted
      = none
    ∧ (main_run org base_url exclude_filter output_csv debug rp cp clock true
        fuel).counts = []
    ∧ (main_run org base_url exclude_filter output_csv debug rp cp clock true fuel).csv
      = some [csvHeader]
    ∧ Event.print (summaryMsg org 0)
      ∈ (main_run org base_url exclude_filter output_csv debug rp cp clock true
        fuel).events := by
  have hgr : (get_repositories org base_url exclude_filter debug rp fuel).repos = [] := by
    have h := grepos_go_run org base_url exclude_filter debug rp 0 (fun _ => []) fuel 1
      [] 0 [] [] (by intro i hi; omega) (Or.inl h1) (by omega)
    simp only [get_repositories]
    rw [h.1]
    simp
  have hpf : (processRepos org base_url debug cp clock fuel
      (get_repositories org base_url exclude_filter debug rp fuel).repos
      0 [] [] [] []).failure = none := by
    rw [hgr]
    rfl
  have hc : (processRepos org base_url debug cp clock fuel
      (get_repositories org base_url exclude_filter debug rp fuel).repos
      0 [] [] [] []).counts = [] := by
    rw [hgr]
    rfl
  have hm := main_run_eq_of_ok org base_url exclude_filter output_csv debug rp cp clock
    fuel hpf
  rw [hm]
  refine ⟨rfl, hc, ?_, ?_⟩
  · rw [hc]
    simp [csvLines]
  · rw [hc]
    simp

theorem claim_C8_witness :
    (main_run ("acme") ("base") ("") ("out.csv") false wRpEmpty wCpTwo (fun _ => 0) true
        1).aborted = none
    ∧ (main_run ("acme") ("base") ("") ("out.csv") false wRpEmpty wCpTwo (fun _ => 0)
        true 1).counts = []
    ∧ (main_run ("acme") ("base") ("") ("out.csv") false wRpEmpty wCpTwo (fun _ => 0)
        true 1).csv = some [csvHeader]
    ∧ Event.print (summaryMsg ("acme") 0)
      ∈ (main_run ("acme") ("base") ("") ("out.csv") false wRpEmpty wCpTwo (fun _ => 0)
        true 1).events :=
  claim_C8 ("acme") ("base") ("") ("out.csv") false wRpEmpty wCpTwo (fun _ => 0) 1
    (by decide) (by decide)

/-! ## Claim C9: the 90-day cutoff is recomputed per repository -/

theorem grc_go_requested_extends (org repo base_url : String) (debug : Bool) (since : Int)
    (cp : Nat → Fetch (List AuthorField)) :
    ∀ (fuel page : Nat) (contribs : List String) (events : List Event)
      (requested : List String),
    ∃ t, (get_recent_contributors_go org repo base_url debug since cp fuel page contribs
        events requested).2.1 = requested ++ t := by
  intro fuel
  induction fuel with
  | zero =>
    intro page contribs events requested
    exact ⟨[], by simp [get_recent_contributors_go]⟩
  | succ f ih =>
    intro page contribs events requested
    simp only [get_recent_contributors_go]
    rcases hcp : cp page with commits | _
    · by_cases he : commits.isEmpty
      · exact ⟨[commitPageUrl base_url org repo since page], by simp [he]⟩
      · simp only [he, Bool.false_eq_true, if_false]
        rcases hpc : processCommits repo debug commits contribs
            (events ++ dbg debug
              (.print (requestingMsg (commitPageUrl base_url org repo since page))))
          with ⟨ev2, r⟩
        match r with
        | .fail e => exact ⟨[commitPageUrl base_url org repo since page], rfl⟩
        | .ok contribs1 =>
          obtain ⟨t, ht⟩ := ih (page + 1) contribs1
            (ev2 ++ dbg debug (.print (processedPageMsg (page + 1) repo)))
            (requested ++ [commitPageUrl base_url org repo since page])
          exact ⟨[commitPageUrl base_url org repo since page] ++ t, by
            rw [ht, List.append_assoc]⟩
    · exact ⟨[commitPageUrl base_url org repo since page], rfl⟩

theorem processRepos_sinces (org base_url : String) (debug : Bool)
    (cp : String → Nat → Fetch (List AuthorField)) (clock : Nat → Int) (fuel : Nat) :
    ∀ (repos : List String) (i : Nat) (sets : List (List String)) (sinces : List Int)
      (counts : List (String × Nat)) (events : List Event),
    ∃ m, (processRepos org base_url debug cp clock fuel repos i sets sinces counts
        events).sinces
      = sinces ++ (List.range m).map (fun t => clock (i + t) - ninetyDaysSec) := by
  intro repos
  induction repos with
  | nil =>
    intro i sets sinces counts events
    exact ⟨0, by simp [processRepos]⟩
  | cons r rest ih =>
    intro i sets sinces counts events
    simp only [processRepos]
    rcases hres : (get_recent_contributors org r base_url debug (clock i) (cp r) fuel).res
      with contribs | e
    · obtain ⟨m, hm⟩ := ih (i + 1) (sets ++ [contribs])
        (sinces ++ [(get_recent_contributors org r base_url debug (clock i)
          (cp r) fuel).since_used])
        (accumulate debug counts contribs).1
        (events ++ (get_recent_contributors org r base_url debug (clock i)
          (cp r) fuel).events ++ (accumulate debug counts contribs).2)
      refine ⟨m + 1, ?_⟩
      rw [hm]
      rw [List.range_succ_eq_map m, List.map_cons, List.map_map, List.append_assoc,
        List.singleton_append]
      show sinces ++ (clock i - ninetyDaysSec)
          :: List.map (fun t => clock (i + 1 + t) - ninetyDaysSec) (List.range m) = _
      simp only [Nat.add_zero]
      refine congrArg (sinces ++ ·) (congrArg (List.cons _) (List.map_congr_left ?_))
      intro t _
      simp only [Function.comp_apply]
      congr 2
      omega
    · exact ⟨0, by simp⟩

theorem main_run_sinces (org base_url exclude_filter output_csv : String) (debug : Bool)
    (rp : Nat → Fetch (List String)) (cp : String → Nat → Fetch (List AuthorField))
    (clock : Nat → Int) (writeOk : Bool) (fuel : Nat) :
    (main_run org base_url exclude_filter output_csv debug rp cp clock writeOk
        fuel).sinces
      = (processRepos org base_url debug cp clock fuel
          (get_repositories org base_url exclude_filter debug rp fuel).repos
          0 [] [] [] []).sinces := by
  rcases hpf : (processRepos org base_url debug cp clock fuel
      (get_repositories org base_url exclude_filter debug rp fuel).repos
      0 [] [] [] []).failure with _ | e
  · cases writeOk
    · rw [main_run_eq_of_io org base_url exclude_filter output_csv debug rp cp clock fuel
        hpf]
    · rw [main_run_eq_of_ok org base_url exclude_filter output_csv debug rp cp clock fuel
        hpf]
  · rw [main_run_eq_of_failure org base_url exclude_filter output_csv debug rp cp clock
      writeOk fuel e hpf]

/-- C9: the `since` cutoff is recomputed at each invocation of the
contributor collector: the cutoff of the collector equals its own
invocation-time clock minus 90 days and appears in the first URL it
requests; in a run, the cutoff recorded for the i-th processed repository
is `clock i - 90 days` (not a value fixed at run start), so whenever the
clock moves forward between two collector invocations the cutoff drifts
forward with it. -/
theorem claim_C9 (org repo base_url exclude_filter output_csv : String) (debug : Bool)
    (now : Int) (cp0 : Nat → Fetch (List AuthorField))
    (rp : Nat → Fetch (List String)) (cp : String → Nat → Fetch (List AuthorField))
    (clock : Nat → Int) (writeOk : Bool) (fuel : Nat) (hfuel : 1 ≤ fuel) :
    (get_recent_contributors org repo base_url debug now cp0 fuel).since_used
      = now - ninetyDaysSec
    ∧ (get_recent_contributors org repo base_url debug now cp0 fuel).requested.head?
      = some (commitPageUrl base_url org repo (now - ninetyDaysSec) 1)
    ∧ (∀ i, (hi : i < (main_run org base_url exclude_filter output_csv debug rp cp clock
          writeOk fuel).sinces.length) →
        (main_run org base_url exclude_filter output_csv debug rp cp clock writeOk
          fuel).sinces.get ⟨i, hi⟩ = clock i - ninetyDaysSec)
    ∧ (∀ i j, (hi : i < (main_run org base_url exclude_filter output_csv debug rp cp
          clock writeOk fuel).sinces.length) →
        (hj : j < (main_run org base_url exclude_filter output_csv debug rp cp clock
          writeOk fuel).sinces.length) →
        clock i < clock j →
        (main_run org base_url exclude_filter output_csv debug rp cp clock writeOk
          fuel).sinces.get ⟨i, hi⟩
          < (main_run org base_url exclude_filter output_csv debug rp cp clock writeOk
            fuel).sinces.get ⟨j, hj⟩) := by
  have hget : ∀ i, (hi : i < (main_run org base_url exclude_filter output_csv debug rp cp
      clock writeOk fuel).sinces.length) →
      (main_run org base_url exclude_filter output_csv debug rp cp clock writeOk
        fuel).sinces.get ⟨i, hi⟩ = clock i - ninetyDaysSec := by
    obtain ⟨m, hm⟩ := processRepos_sinces org base_url debug cp clock fuel
      (get_repositories org base_url exclude_filter debug rp fuel).repos 0 [] [] [] []
    have hs := main_run_sinces org base_url exclude_filter output_csv debug rp cp clock
      writeOk fuel
    intro i hi
    have hseq : (main_run org base_url exclude_filter output_csv debug rp cp clock
        writeOk fuel).sinces
        = (List.range m).map (fun t => clock (0 + t) - ninetyDaysSec) := by
      rw [hs, hm]
      simp
    have him : i < m := by
      have h2 := hi
      rw [hseq] at h2
      simpa using h2
    rw [List.get_eq_getElem, List.getElem_of_eq hseq hi]
    simp
  refine ⟨rfl, ?_, hget, ?_⟩
  · match fuel, hfuel with
    | f + 1, _ =>
      simp only [get_recent_contributors, get_recent_contributors_go]
      rcases hcp : cp0 1 with commits | _
      · by_cases he : commits.isEmpty
        · simp [he]
        · simp only [he, Bool.false_eq_true, if_false]
          rcases hpc : processCommits repo debug commits []
              ([] ++ dbg debug (.print (requestingMsg
                (commitPageUrl base_url org repo (now - ninetyDaysSec) 1))))
            with ⟨ev2, r⟩
          match r with
          | .fail e => simp
          | .ok contribs1 =>
            obtain ⟨t, ht⟩ := grc_go_requested_extends org repo base_url debug
              (now - ninetyDaysSec) cp0 f 2 contribs1
              (ev2 ++ dbg debug (.print (processedPageMsg 2 repo)))
              ([] ++ [commitPageUrl base_url org repo (now - ninetyDaysSec) 1])
            rw [ht]
            simp
      · simp
  · intro i j hi hj hij
    rw [hget i hi, hget j hj]
    omega

theorem claim_C9_witness :
    (get_recent_contributors ("acme") ("api") ("base") false 8000000 wCpAlice
        3).since_used = 8000000 - ninetyDaysSec
    ∧ (get_recent_contributors ("acme") ("api") ("base") false 8000000 wCpAlice
        3).requested.head?
      = some (commitPageUrl ("base") ("acme") ("api") (8000000 - ninetyDaysSec) 1)
    ∧ (∀ i, (hi : i < (main_run ("acme") ("base") ("") ("out.csv") false wRp2 wCpTwo
          wClock true 3).sinces.length) →
        (main_run ("acme") ("base") ("") ("out.csv") false wRp2 wCpTwo wClock true
          3).sinces.get ⟨i, hi⟩ = wClock i - ninetyDaysSec)
    ∧ (∀ i j, (hi : i < (main_run ("acme") ("base") ("") ("out.csv") false wRp2 wCpTwo
          wClock true 3).sinces.length) →
        (hj : j < (main_run ("acme") ("base") ("") ("out.csv") false wRp2 wCpTwo wClock
          true 3).sinces.length) →
        wClock i < wClock j →
        (main_run ("acme") ("base") ("") ("out.csv") false wRp2 wCpTwo wClock true
          3).sinces.get ⟨i, hi⟩
          < (main_run ("acme") ("base") ("") ("out.csv") false wRp2 wCpTwo wClock true
            3).sinces.get ⟨j, hj⟩) :=
  claim_C9 ("acme") ("api") ("base") ("") ("out.csv") false 8000000 wCpAlice wRp2 wCpTwo
    wClock true 3 (by decide)

/-! ## Claim C10: the debug flag only affects standard output -/

theorem grepos_go_indep (org base_url exclude_filter : String) (d₁ d₂ : Bool)
    (pages : Nat → Fetch (List String)) :
    ∀ (fuel page : Nat) (repos : List String) (total : Nat) (e₁ e₂ : List Event)
      (requested : List String),
    (get_repositories_go org base_url exclude_filter d₁ pages fuel page repos total e₁
        requested).repos
      = (get_repositories_go org base_url exclude_filter d₂ pages fuel page repos total
        e₂ requested).repos
    ∧ (get_repositories_go org base_url exclude_filter d₁ pages fuel page repos total e₁
        requested).total_fetched
      = (get_repositories_go org base_url exclude_filter d₂ pages fuel page repos total
        e₂ requested).total_fetched
    ∧ (get_repositories_go org base_url exclude_filter d₁ pages fuel page repos total e₁
        requested).requested
      = (get_repositories_go org base_url exclude_filter d₂ pages fuel page repos total
        e₂ requested).requested := by
  intro fuel
  induction fuel with
  | zero => intro page repos total e₁ e₂ requested; exact ⟨rfl, rfl, rfl⟩
  | succ f ih =>
    intro page repos total e₁ e₂ requested
    simp only [get_repositories_go]
    rcases hp : pages page with result | _
    · by_cases he : result.isEmpty
      · simp [he]
      · simp only [he, Bool.false_eq_true, if_false]
        exact ih _ _ _ _ _ _
    · exact ⟨rfl, rfl, rfl⟩

theorem accumulate_indep (d₁ d₂ : Bool) :
    ∀ (contribs : List String) (counts : List (String × Nat)),
    (accumulate d₁ counts contribs).1 = (accumulate d₂ counts contribs).1 := by
  intro contribs
  induction contribs with
  | nil => intro counts; rfl
  | cons c rest ih => intro counts; exact ih (bump counts c)

theorem processRepos_indep (org base_url : String) (d₁ d₂ : Bool)
    (cp : String → Nat → Fetch (List AuthorField)) (clock : Nat → Int) (fuel : Nat) :
    ∀ (repos : List String) (i : Nat) (sets : List (List String)) (sinces : List Int)
      (counts : List (String × Nat)) (e₁ e₂ : List Event),
    (processRepos org base_url d₁ cp clock fuel repos i sets sinces counts e₁).sets
      = (processRepos org base_url d₂ cp clock fuel repos i sets sinces counts e₂).sets
    ∧ (processRepos org base_url d₁ cp clock fuel repos i sets sinces counts e₁).sinces
      = (processRepos org base_url d₂ cp clock fuel repos i sets sinces counts e₂).sinces
    ∧ (processRepos org base_url d₁ cp clock fuel repos i sets sinces counts e₁).counts
      = (processRepos org base_url d₂ cp clock fuel repos i sets sinces counts e₂).counts
    ∧ (processRepos org base_url d₁ cp clock fuel repos i sets sinces counts e₁).failure
      = (processRepos org base_url d₂ cp clock fuel repos i sets sinces counts
        e₂).failure := by
  intro repos
  induction repos with
  | nil => intro i sets sinces counts e₁ e₂; exact ⟨rfl, rfl, rfl, rfl⟩
  | cons r rest ih =>
    intro i sets sinces counts e₁ e₂
    have hres := (get_recent_contributors_indep org r base_url d₁ d₂ (clock i) (cp r)
      fuel).1
    rcases hr1 : (get_recent_contributors org r base_url d₁ (clock i) (cp r) fuel).res
      with contribs | e
    · have hr2 : (get_recent_contributors org r base_url d₂ (clock i) (cp r) fuel).res
          = .ok contribs := by
        rw [← hres]
        exact hr1
      rw [processRepos_cons_ok org base_url d₁ cp clock fuel r rest i sets sinces counts
        e₁ contribs hr1]
      rw [processRepos_cons_ok org base_url d₂ cp clock fuel r rest i sets sinces counts
        e₂ contribs hr2]
      have hacc : (accumulate d₁ counts contribs).1 = (accumulate d₂ counts contribs).1 :=
        accumulate_indep d₁ d₂ contribs counts
      have hsu : (get_recent_contributors org r base_url d₁ (clock i) (cp r)
          fuel).since_used
          = (get_recent_contributors org r base_url d₂ (clock i) (cp r)
            fuel).since_used := rfl
      rw [hacc, hsu]
      exact ih (i + 1) _ _ _ _ _
    · have hr2 : (get_recent_contributors org r base_url d₂ (clock i) (cp r) fuel).res
          = .fail e := by
        rw [← hres]
        exact hr1
      rw [processRepos_cons_fail org base_url d₁ cp clock fuel r rest i sets sinces counts
        e₁ e hr1]
      rw [processRepos_cons_fail org base_url d₂ cp clock fuel r rest i sets sinces counts
        e₂ e hr2]
      exact ⟨rfl, rfl, rfl, rfl⟩

/-- C10: the debug flag affects only standard-output logging: for a fixed
set of API responses, clock, and write outcome, the runs with debug on and
debug off produce the same repository list, the same per-repository
contributor sets, the same aggregate map, the same CSV file content, and
the same abort status. -/
theorem claim_C10 (org base_url exclude_filter output_csv : String)
    (rp : Nat → Fetch (List String)) (cp : String → Nat → Fetch (List AuthorField))
    (clock : Nat → Int) (writeOk : Bool) (fuel : Nat) :
    (main_run org base_url exclude_filter output_csv true rp cp clock writeOk fuel).repos
      = (main_run org base_url exclude_filter output_csv false rp cp clock writeOk
        fuel).repos
    ∧ (main_run org base_url exclude_filter output_csv true rp cp clock writeOk fuel).sets
      = (main_run org base_url exclude_filter output_csv false rp cp clock writeOk
        fuel).sets
    ∧ (main_run org base_url exclude_filter output_csv true rp cp clock writeOk
        fuel).counts
      = (main_run org base_url exclude_filter output_csv false rp cp clock writeOk
        fuel).counts
    ∧ (main_run org base_url exclude_filter output_csv true rp cp clock writeOk fuel).csv
      = (main_run org base_url exclude_filter output_csv false rp cp clock writeOk
        fuel).csv
    ∧ (main_run org base_url exclude_filter output_csv true rp cp clock writeOk
        fuel).aborted
      = (main_run org base_url exclude_filter output_csv false rp cp clock writeOk
        fuel).aborted := by
  have hg : (get_repositories org base_url exclude_filter true rp fuel).repos
      = (get_repositories org base_url exclude_filter false rp fuel).repos := by
    simp only [get_repositories]
    exact (grepos_go_indep org base_url exclude_filter true false rp fuel 1 [] 0 [] []
      []).1
  have hpi := processRepos_indep org base_url true false cp clock fuel
    (get_repositories org base_url exclude_filter false rp fuel).repos 0 [] [] [] [] []
  rcases hpf : (processRepos org base_url false cp clock fuel
      (get_repositories org base_url exclude_filter false rp fuel).repos
      0 [] [] [] []).failure with _ | e
  · have hpfT : (processRepos org base_url true cp clock fuel
        (get_repositories org base_url exclude_filter true rp fuel).repos
        0 [] [] [] []).failure = none := by
      rw [hg, hpi.2.2.2]
      exact hpf
    cases writeOk
    · rw [main_run_eq_of_io org base_url exclude_filter output_csv true rp cp clock fuel
        hpfT]
      rw [main_run_eq_of_io org base_url exclude_filter output_csv false rp cp clock fuel
        hpf]
      refine ⟨hg, ?_, ?_, rfl, rfl⟩
      · show (processRepos org base_url true cp clock fuel
            (get_repositories org base_url exclude_filter true rp fuel).repos
            0 [] [] [] []).sets = _
        rw [hg, hpi.1]
      · show (processRepos org base_url true cp clock fuel
            (get_repositories org base_url exclude_filter true rp fuel).repos
            0 [] [] [] []).counts = _
        rw [hg, hpi.2.2.1]
    · rw [main_run_eq_of_ok org base_url exclude_filter output_csv true rp cp clock fuel
        hpfT]
      rw [main_run_eq_of_ok org base_url exclude_filter output_csv false rp cp clock fuel
        hpf]
      have hcounts : (processRepos org base_url true cp clock fuel
          (get_repositories org base_url exclude_filter true rp fuel).repos
          0 [] [] [] []).counts
          = (processRepos org base_url false cp clock fuel
            (get_repositories org base_url exclude_filter false rp fuel).repos
            0 [] [] [] []).counts := by
        rw [hg, hpi.2.2.1]
      refine ⟨hg, ?_, hcounts, ?_, rfl⟩
      · show (processRepos org base_url true cp clock fuel
            (get_repositories org base_url exclude_filter true rp fuel).repos
            0 [] [] [] []).sets = _
        rw [hg, hpi.1]
      · show some (csvLines (processRepos org base_url true cp clock fuel
            (get_repositories org base_url exclude_filter true rp fuel).repos
            0 [] [] [] []).counts) = _
        rw [hcounts]
  · have hpfT : (processRepos org base_url true cp clock fuel
        (get_repositories org base_url exclude_filter true rp fuel).repos
        0 [] [] [] []).failure = some e := by
      rw [hg, hpi.2.2.2]
      exact hpf
    rw [main_run_eq_of_failure org base_url exclude_filter output_csv true rp cp clock
      writeOk fuel e hpfT]
    rw [main_run_eq_of_failure org base_url exclude_filter output_csv false rp cp clock
      writeOk fuel e hpf]
    refine ⟨hg, ?_, ?_, rfl, rfl⟩
    · show (processRepos org base_url true cp clock fuel
          (get_repositories org base_url exclude_filter true rp fuel).repos
          0 [] [] [] []).sets = _
      rw [hg, hpi.1]
    · show (processRepos org base_url true cp clock fuel
          (get_repositories org base_url exclude_filter true rp fuel).repos
          0 [] [] [] []).counts = _
      rw [hg, hpi.2.2.1]
